import Mathlib

/-!
Verification development for the signaling server of the screen-capture
repository (`src/server/src/server.ts`).

The server keeps two in-memory maps — `clients : Map<string, ClientInfo>` and
`rooms : Map<string, RoomInfo>` — and handles the WebSocket message types
`join-room`, `signal`, `leave-room`, `ping` plus socket disconnect, together
with the HTTP `GET /ice` ephemeral-credential endpoint.

Embedding conventions:
* JavaScript `Map`s become association lists `List (String × α)` with
  `mapGet` / `mapSet` / `mapDelete` mirroring `get` / `set` / `delete`
  (`set` replaces the existing entry in place, otherwise appends —
  the insertion-order behaviour of a JS `Map`).
* JavaScript `Set<string>` becomes an insertion-ordered duplicate-free
  `List String` with `setAdd` / `setDelete`.
* Fields that may be `undefined`/`null` become `Option`.
* All messages handed to `safeSend` are collected in an output list
  `List Sent` in the order the source emits them.  A registered
  connection's socket is treated as writable: the `readyState` guard in
  `safeSend` only filters transport-level delivery failures, which the
  spec classifies as best-effort and outside the state model (spec §5, §7).
* `Date.now()` becomes an explicit `nowMs : Nat` argument; `createHmac`
  (Node's deterministic HMAC-SHA1) becomes an explicit pure function
  argument `hmac : String → String → String` mapping (secret, message)
  to the base64 digest.
-/

/-- `RoomMode` from server.ts line 56: `'stream' | 'call'`. -/
inductive RoomMode where
  | stream
  | call
deriving DecidableEq, Repr

/-- An opaque JSON value as carried in a `signal` payload.  The server never
inspects it (spec §1, §4.4); the constructors below are only granular enough
to distinguish concrete example payloads.  A JS property that is absent or
`undefined` is modelled as `none` at the `Option JSValue` layer, so every
`JSValue` is a present (possibly falsy) value — e.g. `vobj []` is `{}`. -/
inductive JSValue where
  | vnull
  | vbool (b : Bool)
  | vnum (n : Int)
  | vstr (s : String)
  | vobj (fields : List (String × String))
deriving DecidableEq, Repr

/-- `ClientInfo` from server.ts lines 59-66, minus the raw socket handle
(transport-level, carries no routing state). -/
structure ClientInfo where
  roomId : Option String
  mode : Option RoomMode
  role : Option String
  connectedAt : Nat
  ip : Option String
deriving DecidableEq, Repr

/-- `RoomInfo` from server.ts lines 68-71: fixed mode plus the member set
(`Set<string>`, modelled as an insertion-ordered duplicate-free list). -/
structure RoomInfo where
  mode : RoomMode
  clients : List String
deriving DecidableEq, Repr

/-- The two global maps of server.ts lines 284-285. -/
structure ServerState where
  clients : List (String × ClientInfo)
  rooms : List (String × RoomInfo)
deriving DecidableEq, Repr

/-- `Map.prototype.get`. -/
def mapGet {α : Type} (m : List (String × α)) (k : String) : Option α :=
  (m.find? (fun p => p.1 == k)).map (fun p => p.2)

/-- `Map.prototype.set`: replace the entry in place if the key is present,
otherwise append (JS `Map` keeps insertion order). -/
def mapSet {α : Type} (m : List (String × α)) (k : String) (v : α) :
    List (String × α) :=
  match m with
  | [] => [(k, v)]
  | p :: t => if p.1 = k then (k, v) :: t else p :: mapSet t k v

/-- `Map.prototype.delete`. -/
def mapDelete {α : Type} (m : List (String × α)) (k : String) :
    List (String × α) :=
  m.filter (fun p => p.1 != k)

/-- `Set.prototype.add` on a duplicate-free list. -/
def setAdd (s : List String) (x : String) : List String :=
  if x ∈ s then s else s ++ [x]

/-- `Set.prototype.delete` on a duplicate-free list. -/
def setDelete (s : List String) (x : String) : List String :=
  s.filter (fun y => y != x)

/-- JS truthiness of a `string | undefined` value: `undefined` and the empty
string are falsy, every other string is truthy. -/
def truthyStr : Option String → Bool
  | none => false
  | some s => s != ""

/-- Every server→client message the signaling core emits, with the payload
shapes of server.ts (an `error` payload is either `{message}` or the
mode-conflict variant `{message, expectedMode, receivedMode}` of line 389). -/
inductive ServerMsg where
  | errorMsg (message : String)
  | errorModeConflict (message : String) (expectedMode receivedMode : RoomMode)
  | roomJoined (roomId : String) (mode : RoomMode) (role : String)
      (participants : List (String × Option String))
  | peerJoined (clientId : String) (role : String)
  | peerLeft (clientId : String)
  | signalMsg (roomId : String) (senderId : String) (signal : JSValue)
  | roomLeft
  | pong (timestamp : Nat)
  | welcome (clientId : String)
deriving DecidableEq, Repr

/-- One message handed to `safeSend`, addressed to a registered connection. -/
structure Sent where
  recipient : String
  msg : ServerMsg
deriving DecidableEq, Repr

/-- `send` from server.ts lines 306-314: look the client up; unknown ids are
logged and dropped, otherwise the message goes to that client's socket. -/
def send (st : ServerState) (clientId : String) (msg : ServerMsg) : List Sent :=
  match mapGet st.clients clientId with
  | none => []
  | some _ => [{ recipient := clientId, msg := msg }]

/-- `broadcastRoom` from server.ts lines 316-333: iterate the room's member
set in order, skipping the excluded id and ids missing from the registry. -/
def broadcastRoom (st : ServerState) (roomId : String) (msg : ServerMsg)
    (excludeClientId : Option String) : List Sent :=
  match mapGet st.rooms roomId with
  | none => []
  | some room =>
      room.clients.filterMap (fun participantId =>
        if some participantId == excludeClientId then none
        else
          match mapGet st.clients participantId with
          | none => none
          | some _ => some { recipient := participantId, msg := msg })

/-- `leaveRoom` from server.ts lines 335-358: remove the client from its
current room (deleting the room if it empties, otherwise broadcasting
`peer-left`), then clear the client's `roomId`/`role`/`mode`. -/
def leaveRoom (st : ServerState) (clientId : String) :
    ServerState × List Sent :=
  match mapGet st.clients clientId with
  | none => (st, [])
  | some client =>
      match client.roomId with
      | none => (st, [])
      | some roomId =>
          let clients' := mapSet st.clients clientId
            { client with roomId := none, role := none, mode := none }
          match mapGet st.rooms roomId with
          | none => ({ clients := clients', rooms := st.rooms }, [])
          | some room =>
              let remaining := setDelete room.clients clientId
              if remaining.length = 0 then
                ({ clients := clients', rooms := mapDelete st.rooms roomId }, [])
              else
                let rooms1 := mapSet st.rooms roomId
                  { room with clients := remaining }
                ({ clients := clients', rooms := rooms1 },
                  broadcastRoom { st with rooms := rooms1 } roomId
                    (ServerMsg.peerLeft clientId) (some clientId))

/-- `disconnectClient` from server.ts lines 360-364: leave-cleanup first,
then unregister the connection. -/
def disconnectClient (st : ServerState) (clientId : String) :
    ServerState × List Sent :=
  let left := leaveRoom st clientId
  ({ left.1 with clients := mapDelete left.1.clients clientId }, left.2)

/-- The `join-room` payload (server.ts lines 95-99); every field may be
absent in a `Partial<JoinRoomPayload>`. -/
structure JoinRoomPayload where
  roomId : Option String
  mode : Option String
  role : Option String
deriving DecidableEq, Repr

/-- Mode normalization of server.ts line 374:
`mode === 'stream' ? 'stream' : 'call'`. -/
def normalizeMode (mode : Option String) : RoomMode :=
  if mode = some "stream" then RoomMode.stream else RoomMode.call

/-- Role defaulting of server.ts line 375:
`role || (normalizedMode === 'stream' ? 'viewer' : 'participant')`
(`role` is falsy when absent or the empty string). -/
def normalizeRole (role : Option String) (mode : RoomMode) : String :=
  match role with
  | some r => if r = "" then (if mode = RoomMode.stream then "viewer" else "participant") else r
  | none => if mode = RoomMode.stream then "viewer" else "participant"

/-- The common tail of `handleJoinRoom` (server.ts lines 397-443): add the
client to the member set (creating the entry via `rooms.set` when the room is
new; `Set.add` is idempotent), record `roomId`/`mode`/`role` on the client,
build the participants list, confirm with `room-joined`, then broadcast
`peer-joined` to the others. -/
def joinTail (st1 : ServerState) (leaveSends : List Sent) (clientId : String)
    (client1 : ClientInfo) (roomId : String) (mode : RoomMode) (role : String)
    (room : RoomInfo) : ServerState × List Sent :=
  let room' : RoomInfo := { room with clients := setAdd room.clients clientId }
  let clients' := mapSet st1.clients clientId
    { client1 with roomId := some roomId, mode := some mode, role := some role }
  let st2 : ServerState := { clients := clients', rooms := mapSet st1.rooms roomId room' }
  let participants := (room'.clients.filter (fun id => id != clientId)).filterMap
    (fun id => (mapGet st2.clients id).map (fun p => (id, p.role)))
  (st2,
    leaveSends
      ++ send st2 clientId (ServerMsg.roomJoined roomId mode role participants)
      ++ broadcastRoom st2 roomId (ServerMsg.peerJoined clientId role) (some clientId))

/-- Room lookup and mode-conflict check of `handleJoinRoom`
(server.ts lines 387-401): an existing room with a different mode is a
conflict error; a missing room is created with the normalized mode. -/
def joinPhase2 (st1 : ServerState) (leaveSends : List Sent) (clientId : String)
    (client1 : ClientInfo) (roomId : String) (mode : RoomMode) (role : String) :
    ServerState × List Sent :=
  match mapGet st1.rooms roomId with
  | some room =>
      if room.mode ≠ mode then
        (st1, leaveSends ++ send st1 clientId (ServerMsg.errorModeConflict
          "Room already exists with a different mode." room.mode mode))
      else
        joinTail st1 leaveSends clientId client1 roomId mode role room
  | none =>
      joinTail st1 leaveSends clientId client1 roomId mode role
        { mode := mode, clients := [] }

/-- `handleJoinRoom` from server.ts lines 366-444.  Falsy `roomId`/`mode`
are rejected; an unknown client id is logged and dropped; a client already
in a *different* room is first led through `leaveRoom` (which clears its
`roomId`/`role`/`mode` on the shared record, spelled out here as `client1`). -/
def handleJoinRoom (st : ServerState) (clientId : String)
    (payload : JoinRoomPayload) : ServerState × List Sent :=
  if !truthyStr payload.roomId || !truthyStr payload.mode then
    (st, send st clientId
      (ServerMsg.errorMsg "roomId and mode are required to join a room."))
  else
    let normalizedRoomId := payload.roomId.getD ""
    let normalizedMode := normalizeMode payload.mode
    let normalizedRole := normalizeRole payload.role normalizedMode
    match mapGet st.clients clientId with
    | none => (st, [])
    | some client =>
        if client.roomId.isSome && client.roomId != some normalizedRoomId then
          let left := leaveRoom st clientId
          joinPhase2 left.1 left.2 clientId
            { client with roomId := none, role := none, mode := none }
            normalizedRoomId normalizedMode normalizedRole
        else
          joinPhase2 st [] clientId client normalizedRoomId normalizedMode
            normalizedRole

/-- The `signal` payload (server.ts lines 76-80) as a
`Partial<SignalPayload>`: `signal = none` models an absent / `undefined`
property, `signal = some v` any present value. -/
structure SignalPayloadM where
  roomId : Option String
  targetClientId : Option String
  signal : Option JSValue
deriving DecidableEq, Repr

/-- `handleSignal` from server.ts lines 446-488.  It never mutates state;
its observable output is the list of messages sent. -/
def handleSignal (st : ServerState) (clientId : String)
    (payload : SignalPayloadM) : List Sent :=
  if !truthyStr payload.roomId || payload.signal = none then
    send st clientId
      (ServerMsg.errorMsg "Signal payload must include roomId and signal data.")
  else
    let roomId := payload.roomId.getD ""
    let signal := payload.signal.getD JSValue.vnull
    match mapGet st.clients clientId with
    | none =>
        send st clientId
          (ServerMsg.errorMsg "You are not part of the specified room.")
    | some sender =>
        if sender.roomId ≠ some roomId then
          send st clientId
            (ServerMsg.errorMsg "You are not part of the specified room.")
        else
          if truthyStr payload.targetClientId then
            let targetId := payload.targetClientId.getD ""
            match mapGet st.clients targetId with
            | none =>
                send st clientId
                  (ServerMsg.errorMsg "Target client is not part of this room.")
            | some target =>
                if target.roomId ≠ some roomId then
                  send st clientId
                    (ServerMsg.errorMsg "Target client is not part of this room.")
                else
                  [{ recipient := targetId,
                     msg := ServerMsg.signalMsg roomId clientId signal }]
          else
            broadcastRoom st roomId (ServerMsg.signalMsg roomId clientId signal)
              (some clientId)

/-- `handleLeaveRoom` from server.ts lines 490-493. -/
def handleLeaveRoom (st : ServerState) (clientId : String) :
    ServerState × List Sent :=
  let left := leaveRoom st clientId
  (left.1, left.2 ++ send left.1 clientId ServerMsg.roomLeft)

/-- One completed client-driven operation, as dispatched by `handleMessage`
(server.ts lines 516-531) plus the socket-close path (lines 561-568). -/
inductive ServerOp where
  | joinRoom (clientId : String) (payload : JoinRoomPayload)
  | signal (clientId : String) (payload : SignalPayloadM)
  | leaveReq (clientId : String)
  | ping (clientId : String) (nowMs : Nat)
  | disconnect (clientId : String)

/-- The state/output transition of one completed operation. -/
def step (st : ServerState) : ServerOp → ServerState × List Sent
  | ServerOp.joinRoom c p => handleJoinRoom st c p
  | ServerOp.signal c p => (st, handleSignal st c p)
  | ServerOp.leaveReq c => handleLeaveRoom st c
  | ServerOp.ping c now => (st, send st c (ServerMsg.pong now))
  | ServerOp.disconnect c => disconnectClient st c

/-- An Express `req.query` value for `uid`: absent, a string, or an array of
such values (server.ts line 129 recurses on `value[0]`). -/
inductive QueryValue where
  | undef
  | str (s : String)
  | arr (vs : List QueryValue)
deriving Repr

/-- `normalizeUid` from server.ts lines 129-151: take the first element of an
array, fall back to `"web"` when absent or (after trimming) empty, else trim
and truncate to 64 characters. -/
def normalizeUid : QueryValue → String
  | QueryValue.arr (v :: _) => normalizeUid v
  | QueryValue.arr [] => "web"
  | QueryValue.undef => "web"
  | QueryValue.str s =>
      if s = "" then "web"
      else
        let trimmed := s.trim
        if trimmed = "" then "web" else trimmed.take 64

/-- An entry of the `iceServers` array (server.ts lines 28-31): a STUN-only
descriptor or a TURN descriptor carrying the credential pair. -/
inductive IceServer where
  | stun (urls : List String)
  | turn (urls : List String) (username credential : String)
deriving DecidableEq, Repr

/-- `IceResponse` from server.ts lines 23-32. -/
structure IceResponse where
  username : String
  credential : String
  realm : String
  ttl : Nat
  iceServers : List IceServer
deriving DecidableEq, Repr

/-- The environment-derived configuration of the `/ice` endpoint
(server.ts lines 18-21); `turnSecret = none` models an unset `TURN_SECRET`. -/
structure IceConfig where
  turnSecret : Option String
  turnHost : String
  turnRealm : String
  iceTtlSec : Nat
deriving DecidableEq, Repr

/-- The source default for `ICE_TTL_SEC` (server.ts line 21). -/
def ICE_TTL_SEC_DEFAULT : Nat := 86400

/-- `ICE_CACHE_TTL_MS` from server.ts line 34. -/
def ICE_CACHE_TTL_MS : Nat := 5 * 60 * 1000

/-- One entry of `iceResponseCache` (server.ts line 36). -/
structure IceCacheEntry where
  cachedAt : Nat
  response : IceResponse
deriving DecidableEq, Repr

/-- The `iceResponseCache` map, keyed by normalized identity. -/
def IceCache : Type := List (String × IceCacheEntry)

/-- `buildIceResponse` from server.ts lines 153-175, with `Date.now()` passed
in as `nowMs` and Node's deterministic `createHmac('sha1', secret)`
base64 digest passed in as the pure function `hmac secret message`. -/
def buildIceResponse (hmac : String → String → String) (cfg : IceConfig)
    (nowMs : Nat) (uid : String) (secret : String) : IceResponse :=
  let expiry := nowMs / 1000 + cfg.iceTtlSec
  let username := toString expiry ++ ":" ++ uid
  let credential := hmac secret username
  let stunUrls := ["stun:" ++ cfg.turnHost ++ ":3478", "stun:" ++ cfg.turnHost ++ ":80"]
  let turnUrls :=
    [ "turn:" ++ cfg.turnHost ++ ":3478?transport=udp",
      "turn:" ++ cfg.turnHost ++ ":3478?transport=tcp",
      "turns:" ++ cfg.turnHost ++ ":443?transport=tcp" ]
  { username := username, credential := credential, realm := cfg.turnRealm,
    ttl := cfg.iceTtlSec,
    iceServers := [IceServer.stun stunUrls, IceServer.turn turnUrls username credential] }

/-- The HTTP outcome of `GET /ice`: the 500 missing-secret error or a 200
with an `IceResponse` body. -/
inductive IceResult where
  | errorNoSecret
  | ok (response : IceResponse)
deriving DecidableEq, Repr

/-- The `GET /ice` handler from server.ts lines 177-195: reject when the
secret is unset (falsy), serve a cache entry younger than the window
unchanged, otherwise compute a fresh response and cache it at `nowMs`.
Returns the updated cache together with the HTTP outcome. -/
def getIce (hmac : String → String → String) (cfg : IceConfig)
    (cache : IceCache) (nowMs : Nat) (uidQuery : QueryValue) :
    IceCache × IceResult :=
  if !truthyStr cfg.turnSecret then (cache, IceResult.errorNoSecret)
  else
    let secret := cfg.turnSecret.getD ""
    let uid := normalizeUid uidQuery
    match mapGet cache uid with
    | some cached =>
        if nowMs - cached.cachedAt < ICE_CACHE_TTL_MS then
          (cache, IceResult.ok cached.response)
        else
          let response := buildIceResponse hmac cfg nowMs uid secret
          (mapSet cache uid { cachedAt := nowMs, response := response },
            IceResult.ok response)
    | none =>
        let response := buildIceResponse hmac cfg nowMs uid secret
        (mapSet cache uid { cachedAt := nowMs, response := response },
          IceResult.ok response)

/-- The keys of an association list, used to state duplicate-freedom. -/
def keysNodup {α : Type} (m : List (String × α)) : Prop :=
  (m.map Prod.fst).Nodup

instance {α : Type} (m : List (String × α)) : Decidable (keysNodup m) := by
  unfold keysNodup; infer_instance

/-!  State invariants of the signaling core. -/

/-- The recorded `roomId` of connection `cid` is `rid` (Boolean form, so that
concrete states can be checked by evaluation). -/
def memberOkB (st : ServerState) (rid cid : String) : Bool :=
  match mapGet st.clients cid with
  | some ci => ci.roomId == some rid
  | none => false

/-- Every member of every room entry is a registered connection whose
recorded `roomId` is that room's id. -/
def Consistent (st : ServerState) : Prop :=
  ∀ p ∈ st.rooms, ∀ cid ∈ p.2.clients, memberOkB st p.1 cid = true

/-- Structural well-formedness: both maps have duplicate-free keys and every
member set is duplicate-free (automatic for JS `Map`/`Set`). -/
def WellFormed (st : ServerState) : Prop :=
  keysNodup st.clients ∧ keysNodup st.rooms ∧ ∀ p ∈ st.rooms, p.2.clients.Nodup

/-- Every room entry has a non-empty member set. -/
def NonemptyRooms (st : ServerState) : Prop :=
  ∀ p ∈ st.rooms, p.2.clients ≠ []

instance (st : ServerState) : Decidable (Consistent st) := by
  unfold Consistent; infer_instance

instance (st : ServerState) : Decidable (WellFormed st) := by
  unfold WellFormed; infer_instance

instance (st : ServerState) : Decidable (NonemptyRooms st) := by
  unfold NonemptyRooms; infer_instance

/-!  Message-kind predicates. -/

def isRoomJoined : ServerMsg → Bool
  | ServerMsg.roomJoined _ _ _ _ => true
  | _ => false

def isPeerJoined : ServerMsg → Bool
  | ServerMsg.peerJoined _ _ => true
  | _ => false

def isPeerLeft : ServerMsg → Bool
  | ServerMsg.peerLeft _ => true
  | _ => false

def isErrorEnvelope : ServerMsg → Bool
  | ServerMsg.errorMsg _ => true
  | ServerMsg.errorModeConflict _ _ _ => true
  | _ => false

/-!  Concrete fixtures used by witnesses and counterexamples. -/

/-- Fixture: a client record with the given routing fields. -/
def exClient (rid : Option String) (mode : Option RoomMode)
    (role : Option String) : ClientInfo :=
  { roomId := rid, mode := mode, role := role, connectedAt := 0, ip := none }

/-- Fixture: clients `"a"` and `"b"` both joined to room `"r1"` (call mode). -/
def exStTwo : ServerState :=
  { clients := [("a", exClient (some "r1") (some RoomMode.call) (some "participant")),
                ("b", exClient (some "r1") (some RoomMode.call) (some "participant"))],
    rooms := [("r1", { mode := RoomMode.call, clients := ["a", "b"] })] }

/-- Fixture: client `"a"` alone in room `"x1"`, client `"b"` alone in `"r1"`. -/
def exStSplit : ServerState :=
  { clients := [("a", exClient (some "x1") (some RoomMode.call) (some "participant")),
                ("b", exClient (some "r1") (some RoomMode.call) (some "participant"))],
    rooms := [("x1", { mode := RoomMode.call, clients := ["a"] }),
              ("r1", { mode := RoomMode.call, clients := ["b"] })] }

/-- Fixture: one registered, unjoined client `"a"`; no rooms. -/
def exStLone : ServerState :=
  { clients := [("a", exClient none none none)], rooms := [] }

/-- Fixture ICE configuration carrying the source-default TTL. -/
def exIceCfg : IceConfig :=
  { turnSecret := some "secret", turnHost := "turn.example",
    turnRealm := "realm", iceTtlSec := ICE_TTL_SEC_DEFAULT }

/-- A stand-in for the deterministic HMAC digest in concrete examples; the
theorems are universally quantified over the actual digest function. -/
def exHmac : String → String → String := fun _ message => message


/-- Fixture: unjoined client `"a"`, client `"b"` alone in room `"r1"`. -/
def exStHost : ServerState :=
  { clients := [("a", exClient none none none),
                ("b", exClient (some "r1") (some RoomMode.call) (some "participant"))],
    rooms := [("r1", { mode := RoomMode.call, clients := ["b"] })] }


/-!  Association-list lemmas for the `Map` embedding. -/

theorem mapGet_nil {α : Type} (k : String) : mapGet ([] : List (String × α)) k = none := rfl

theorem mapGet_cons {α : Type} (p : String × α) (t : List (String × α)) (k : String) :
    mapGet (p :: t) k = if p.1 = k then some p.2 else mapGet t k := by
  by_cases h : p.1 = k <;> simp [mapGet, List.find?_cons, h]

theorem mapGet_set_self {α : Type} (m : List (String × α)) (k : String) (v : α) :
    mapGet (mapSet m k v) k = some v := by
  induction m with
  | nil => simp [mapSet, mapGet_cons]
  | cons p t ih =>
      by_cases h : p.1 = k
      · simp [mapSet, h, mapGet_cons]
      · simp [mapSet, h, mapGet_cons, ih]

theorem mapGet_set_ne {α : Type} (m : List (String × α)) (k k' : String) (v : α)
    (h : k' ≠ k) : mapGet (mapSet m k v) k' = mapGet m k' := by
  induction m with
  | nil => simp [mapSet, mapGet_cons, mapGet_nil, Ne.symm h]
  | cons p t ih =>
      by_cases hp : p.1 = k
      · simp [mapSet, hp, mapGet_cons, Ne.symm h, hp ▸ (Ne.symm h)]
      · simp [mapSet, hp, mapGet_cons, ih]

theorem mapGet_del_self {α : Type} (m : List (String × α)) (k : String) :
    mapGet (mapDelete m k) k = none := by
  induction m with
  | nil => rfl
  | cons p t ih =>
      by_cases hp : p.1 = k
      · simpa [mapDelete, hp] using ih
      · simpa [mapDelete, List.filter_cons, hp, mapGet_cons] using ih

theorem mapGet_del_ne {α : Type} (m : List (String × α)) (k k' : String)
    (h : k' ≠ k) : mapGet (mapDelete m k) k' = mapGet m k' := by
  induction m with
  | nil => rfl
  | cons p t ih =>
      by_cases hp : p.1 = k
      · have h1 : p.1 ≠ k' := by rw [hp]; exact Ne.symm h
        have h2 : mapDelete (p :: t) k = mapDelete t k := by
          simp [mapDelete, List.filter_cons, hp]
        rw [h2, ih, mapGet_cons, if_neg h1]
      · have h2 : mapDelete (p :: t) k = p :: mapDelete t k := by
          simp [mapDelete, List.filter_cons, hp]
        rw [h2, mapGet_cons, mapGet_cons, ih]

theorem mapGet_mem {α : Type} {m : List (String × α)} {k : String} {v : α}
    (h : mapGet m k = some v) : (k, v) ∈ m := by
  induction m with
  | nil => simp [mapGet_nil] at h
  | cons p t ih =>
      rw [mapGet_cons] at h
      by_cases hp : p.1 = k
      · simp [hp] at h
        have hpkv : p = (k, v) := by
          cases p with
          | mk a b =>
              simp only at hp h
              rw [hp, h]
        exact List.mem_cons.mpr (Or.inl hpkv.symm)
      · simp [hp] at h
        exact List.mem_cons_of_mem _ (ih h)

theorem mapGet_none_keys {α : Type} {m : List (String × α)} {k : String}
    (h : mapGet m k = none) : ∀ p ∈ m, p.1 ≠ k := by
  induction m with
  | nil => simp
  | cons p t ih =>
      rw [mapGet_cons] at h
      by_cases hp : p.1 = k
      · simp [hp] at h
      · intro q hq
        rcases List.mem_cons.mp hq with hq | hq
        · rw [hq]; exact hp
        · exact ih (by simpa [hp] using h) q hq

theorem mem_mapSet_weak {α : Type} {m : List (String × α)} {k : String} {v : α}
    {p : String × α} (h : p ∈ mapSet m k v) : p = (k, v) ∨ p ∈ m := by
  induction m with
  | nil => simp [mapSet] at h; exact Or.inl h
  | cons q t ih =>
      by_cases hq : q.1 = k
      · simp only [mapSet, if_pos hq] at h
        rcases List.mem_cons.mp h with h | h
        · exact Or.inl h
        · exact Or.inr (List.mem_cons_of_mem _ h)
      · simp only [mapSet, if_neg hq] at h
        rcases List.mem_cons.mp h with h | h
        · exact Or.inr (h ▸ List.mem_cons_self _ _)
        · rcases ih h with h | h
          · exact Or.inl h
          · exact Or.inr (List.mem_cons_of_mem _ h)

theorem mem_mapDelete {α : Type} {m : List (String × α)} {k : String}
    {p : String × α} : p ∈ mapDelete m k ↔ p ∈ m ∧ p.1 ≠ k := by
  simp [mapDelete, List.mem_filter]


theorem keysNodup_mapSet {α : Type} {m : List (String × α)} (k : String) (v : α)
    (h : keysNodup m) : keysNodup (mapSet m k v) := by
  induction m with
  | nil => simp [mapSet, keysNodup]
  | cons p t ih =>
      unfold keysNodup at h ⊢
      simp only [List.map_cons, List.nodup_cons] at h
      by_cases hp : p.1 = k
      · rw [show mapSet (p :: t) k v = (k, v) :: t from by simp [mapSet, hp]]
        simp only [List.map_cons, List.nodup_cons]
        exact ⟨by simpa [hp] using h.1, h.2⟩
      · rw [show mapSet (p :: t) k v = p :: mapSet t k v from by simp [mapSet, hp]]
        simp only [List.map_cons, List.nodup_cons]
        refine ⟨?_, ih h.2⟩
        intro hmem
        rw [List.mem_map] at hmem
        obtain ⟨q, hq, hq1⟩ := hmem
        rcases mem_mapSet_weak hq with rfl | hq2
        · exact hp hq1.symm
        · exact h.1 (List.mem_map.mpr ⟨q, hq2, hq1⟩)

theorem keysNodup_mapDelete {α : Type} {m : List (String × α)} (k : String)
    (h : keysNodup m) : keysNodup (mapDelete m k) := by
  unfold keysNodup at h ⊢
  have hsub : (mapDelete m k).map Prod.fst |>.Sublist (m.map Prod.fst) :=
    List.Sublist.map Prod.fst (List.filter_sublist m)
  exact h.sublist hsub

theorem mapGet_isSome_set_of {α : Type} {m : List (String × α)} {k k' : String}
    {v : α} (h : (mapGet m k').isSome) : (mapGet (mapSet m k v) k').isSome := by
  by_cases hk : k' = k
  · rw [hk, mapGet_set_self]; rfl
  · rw [mapGet_set_ne _ _ _ _ hk]; exact h

theorem mem_mapSet {α : Type} {m : List (String × α)} {k : String} {v : α}
    {p : String × α} (hnd : keysNodup m) (h : p ∈ mapSet m k v) :
    p = (k, v) ∨ (p ∈ m ∧ p.1 ≠ k) := by
  induction m with
  | nil => simp [mapSet] at h; exact Or.inl h
  | cons q t ih =>
      unfold keysNodup at hnd
      simp only [List.map_cons, List.nodup_cons] at hnd
      by_cases hq : q.1 = k
      · simp only [mapSet, if_pos hq] at h
        rcases List.mem_cons.mp h with h | h
        · exact Or.inl h
        · refine Or.inr ⟨List.mem_cons_of_mem _ h, ?_⟩
          intro hk
          exact hnd.1 (List.mem_map.mpr ⟨p, h, by rw [hk, hq]⟩)
      · simp only [mapSet, if_neg hq] at h
        rcases List.mem_cons.mp h with h | h
        · exact Or.inr ⟨h ▸ List.mem_cons_self _ _, h ▸ hq⟩
        · rcases ih hnd.2 h with h | h
          · exact Or.inl h
          · exact Or.inr ⟨List.mem_cons_of_mem _ h.1, h.2⟩


theorem memberOkB_iff {st : ServerState} {rid cid : String} :
    memberOkB st rid cid = true ↔
      ∃ ci, mapGet st.clients cid = some ci ∧ ci.roomId = some rid := by
  unfold memberOkB
  cases h : mapGet st.clients cid with
  | none => simp
  | some ci => simp [beq_iff_eq]

theorem consistent_memberOk {st : ServerState} {rid cid : String}
    {room : RoomInfo} (hc : Consistent st)
    (hroom : mapGet st.rooms rid = some room) (hcid : cid ∈ room.clients) :
    ∃ ci, mapGet st.clients cid = some ci ∧ ci.roomId = some rid :=
  memberOkB_iff.mp (hc (rid, room) (mapGet_mem hroom) cid hcid)

/-!  Characterization lemmas for `send`, `broadcastRoom`, `leaveRoom`. -/

theorem send_some {st : ServerState} {c : String} {ci : ClientInfo}
    (h : mapGet st.clients c = some ci) (msg : ServerMsg) :
    send st c msg = [{ recipient := c, msg := msg }] := by
  unfold send; rw [h]

theorem send_none {st : ServerState} {c : String}
    (h : mapGet st.clients c = none) (msg : ServerMsg) :
    send st c msg = [] := by
  unfold send; rw [h]

theorem send_mem {st : ServerState} {c : String} {msg : ServerMsg} {s : Sent}
    (h : s ∈ send st c msg) : s.recipient = c ∧ s.msg = msg := by
  unfold send at h
  split at h
  · cases h
  · rcases List.mem_singleton.mp h with rfl
    exact ⟨rfl, rfl⟩

theorem broadcastRoom_none {st : ServerState} {rid : String} (msg : ServerMsg)
    (ex : Option String) (h : mapGet st.rooms rid = none) :
    broadcastRoom st rid msg ex = [] := by
  unfold broadcastRoom; rw [h]

theorem broadcastRoom_eq {st : ServerState} {rid : String} (msg : ServerMsg)
    (ex : Option String) {room : RoomInfo} (h : mapGet st.rooms rid = some room) :
    broadcastRoom st rid msg ex = room.clients.filterMap (fun participantId =>
      if some participantId == ex then none
      else
        match mapGet st.clients participantId with
        | none => none
        | some _ => some { recipient := participantId, msg := msg }) := by
  unfold broadcastRoom; rw [h]

theorem broadcastRoom_msg {st : ServerState} {rid : String} {msg : ServerMsg}
    {ex : Option String} {s : Sent} (h : s ∈ broadcastRoom st rid msg ex) :
    s.msg = msg := by
  unfold broadcastRoom at h
  split at h
  · cases h
  · rw [List.mem_filterMap] at h
    obtain ⟨a, _, hfa⟩ := h
    by_cases hex : (some a == ex) = true
    · rw [if_pos hex] at hfa; cases hfa
    · rw [if_neg hex] at hfa
      split at hfa
      · cases hfa
      · cases hfa; rfl

theorem broadcastRoom_not_excluded {st : ServerState} {rid : String}
    {msg : ServerMsg} {exId : String} {s : Sent}
    (h : s ∈ broadcastRoom st rid msg (some exId)) : s.recipient ≠ exId := by
  unfold broadcastRoom at h
  split at h
  · cases h
  · rw [List.mem_filterMap] at h
    obtain ⟨a, _, hfa⟩ := h
    by_cases hex : (some a == some exId) = true
    · rw [if_pos hex] at hfa; cases hfa
    · rw [if_neg hex] at hfa
      split at hfa
      · cases hfa
      · cases hfa
        intro hc
        exact hex (by simpa [beq_iff_eq] using hc)

theorem broadcastRoom_recipient_mem {st : ServerState} {rid : String}
    {msg : ServerMsg} {ex : Option String} {s : Sent} {room : RoomInfo}
    (hroom : mapGet st.rooms rid = some room)
    (h : s ∈ broadcastRoom st rid msg ex) : s.recipient ∈ room.clients := by
  rw [broadcastRoom_eq msg ex hroom, List.mem_filterMap] at h
  obtain ⟨a, ha, hfa⟩ := h
  by_cases hex : (some a == ex) = true
  · rw [if_pos hex] at hfa; cases hfa
  · rw [if_neg hex] at hfa
    split at hfa
    · cases hfa
    · cases hfa; exact ha

theorem filterMapRecipients (cs : List (String × ClientInfo)) (msg : ServerMsg)
    (sender : String) (l : List String)
    (hreg : ∀ id ∈ l, (mapGet cs id).isSome) :
    (l.filterMap (fun participantId =>
      if some participantId == some sender then none
      else
        match mapGet cs participantId with
        | none => none
        | some _ => some { recipient := participantId, msg := msg })).map
          Sent.recipient
      = l.filter (fun y => y != sender) := by
  induction l with
  | nil => simp
  | cons id t ih =>
      have hid := hreg id (List.mem_cons_self _ _)
      have ht : ∀ x ∈ t, (mapGet cs x).isSome :=
        fun x hx => hreg x (List.mem_cons_of_mem _ hx)
      have ih' := ih ht
      simp only [beq_iff_eq, Option.some.injEq] at ih' ⊢
      by_cases hs : id = sender
      · simp only [List.filterMap_cons, List.filter_cons]
        simp [hs]
        exact ih'
      · obtain ⟨ci, hci⟩ := Option.isSome_iff_exists.mp hid
        simp only [List.filterMap_cons, List.filter_cons]
        simp [hs, hci]
        exact ih'

theorem broadcastRoom_recipients {st : ServerState} {rid : String}
    (msg : ServerMsg) (sender : String) {room : RoomInfo}
    (hroom : mapGet st.rooms rid = some room)
    (hreg : ∀ id ∈ room.clients, (mapGet st.clients id).isSome) :
    (broadcastRoom st rid msg (some sender)).map Sent.recipient
      = room.clients.filter (fun y => y != sender) := by
  rw [broadcastRoom_eq msg (some sender) hroom]
  exact filterMapRecipients st.clients msg sender room.clients hreg

/-!  Set-operation lemmas. -/

theorem mem_setDelete {s : List String} {x y : String} :
    y ∈ setDelete s x ↔ y ∈ s ∧ y ≠ x := by
  simp [setDelete, List.mem_filter]

theorem mem_setAdd {s : List String} {x y : String} :
    y ∈ setAdd s x ↔ y ∈ s ∨ y = x := by
  unfold setAdd
  by_cases h : x ∈ s
  · rw [if_pos h]
    constructor
    · exact Or.inl
    · rintro (hy | rfl)
      · exact hy
      · exact h
  · rw [if_neg h]
    simp

theorem setAdd_of_mem {s : List String} {x : String} (h : x ∈ s) :
    setAdd s x = s := if_pos h

theorem setAdd_nodup {s : List String} {x : String} (h : s.Nodup) :
    (setAdd s x).Nodup := by
  unfold setAdd
  by_cases hx : x ∈ s
  · rw [if_pos hx]; exact h
  · rw [if_neg hx]
    simpa [List.nodup_append] using ⟨h, fun hmem => hx hmem⟩

theorem setDelete_nodup {s : List String} {x : String} (h : s.Nodup) :
    (setDelete s x).Nodup := h.filter _

/-!  Branch-equation lemmas for `leaveRoom`. -/

theorem leaveRoom_unregistered (st : ServerState) (c : String)
    (h : mapGet st.clients c = none) : leaveRoom st c = (st, []) := by
  unfold leaveRoom; rw [h]

theorem leaveRoom_no_room (st : ServerState) (c : String) (client : ClientInfo)
    (hcl : mapGet st.clients c = some client) (hrid : client.roomId = none) :
    leaveRoom st c = (st, []) := by
  unfold leaveRoom; rw [hcl]; dsimp only; rw [hrid]

theorem leaveRoom_eq_noroom (st : ServerState) (c : String) (client : ClientInfo)
    (roomId : String) (hcl : mapGet st.clients c = some client)
    (hrid : client.roomId = some roomId) (hroom : mapGet st.rooms roomId = none) :
    leaveRoom st c =
      ({ clients := mapSet st.clients c
           { client with roomId := none, role := none, mode := none },
         rooms := st.rooms }, []) := by
  unfold leaveRoom; rw [hcl]; dsimp only; rw [hrid]; dsimp only; rw [hroom]

theorem leaveRoom_eq_delete (st : ServerState) (c : String) (client : ClientInfo)
    (roomId : String) (room : RoomInfo) (hcl : mapGet st.clients c = some client)
    (hrid : client.roomId = some roomId)
    (hroom : mapGet st.rooms roomId = some room)
    (hlen : (setDelete room.clients c).length = 0) :
    leaveRoom st c =
      ({ clients := mapSet st.clients c
           { client with roomId := none, role := none, mode := none },
         rooms := mapDelete st.rooms roomId }, []) := by
  unfold leaveRoom; rw [hcl]; dsimp only; rw [hrid]; dsimp only; rw [hroom]
  dsimp only; rw [if_pos hlen]

theorem leaveRoom_eq_bcast (st : ServerState) (c : String) (client : ClientInfo)
    (roomId : String) (room : RoomInfo) (hcl : mapGet st.clients c = some client)
    (hrid : client.roomId = some roomId)
    (hroom : mapGet st.rooms roomId = some room)
    (hlen : ¬ (setDelete room.clients c).length = 0) :
    leaveRoom st c =
      ({ clients := mapSet st.clients c
           { client with roomId := none, role := none, mode := none },
         rooms := mapSet st.rooms roomId
           { room with clients := setDelete room.clients c } },
       broadcastRoom
         { st with rooms := mapSet st.rooms roomId { room with clients := setDelete room.clients c } }
         roomId (ServerMsg.peerLeft c) (some c)) := by
  unfold leaveRoom; rw [hcl]; dsimp only; rw [hrid]; dsimp only; rw [hroom]
  dsimp only; rw [if_neg hlen]

theorem setAdd_ne_nil (s : List String) (x : String) : setAdd s x ≠ [] := by
  unfold setAdd
  by_cases h : x ∈ s
  · rw [if_pos h]
    intro hnil
    rw [hnil] at h
    cases h
  · rw [if_neg h]
    simp

theorem memberOkB_congr {st st' : ServerState} {rid cid : String}
    (h : mapGet st'.clients cid = mapGet st.clients cid) :
    memberOkB st' rid cid = memberOkB st rid cid := by
  unfold memberOkB; rw [h]

/-- If a consistent client record says `roomId = some roomId`, any room entry
containing that client has key `roomId`. -/
theorem consistent_self_key {st : ServerState} {c roomId : String}
    {client : ClientInfo} {p : String × RoomInfo}
    (hcl : mapGet st.clients c = some client)
    (hrid : client.roomId = some roomId) (hok : memberOkB st p.1 c = true) :
    p.1 = roomId := by
  obtain ⟨ci, hci, hcirid⟩ := memberOkB_iff.mp hok
  rw [hcl] at hci
  injection hci with hci
  subst hci
  rw [hrid] at hcirid
  injection hcirid with h1
  exact h1.symm

theorem leaveRoom_clients_other (st : ServerState) (c c' : String)
    (hne : c' ≠ c) :
    mapGet (leaveRoom st c).1.clients c' = mapGet st.clients c' := by
  cases hcl : mapGet st.clients c with
  | none => rw [leaveRoom_unregistered st c hcl]
  | some client =>
  cases hrid : client.roomId with
  | none => rw [leaveRoom_no_room st c client hcl hrid]
  | some roomId =>
  cases hroom : mapGet st.rooms roomId with
  | none =>
      rw [leaveRoom_eq_noroom st c client roomId hcl hrid hroom]
      exact mapGet_set_ne _ _ _ _ hne
  | some room =>
      by_cases hlen : (setDelete room.clients c).length = 0
      · rw [leaveRoom_eq_delete st c client roomId room hcl hrid hroom hlen]
        exact mapGet_set_ne _ _ _ _ hne
      · rw [leaveRoom_eq_bcast st c client roomId room hcl hrid hroom hlen]
        exact mapGet_set_ne _ _ _ _ hne

/-- After `leaveRoom`, the leaving client's record (if registered) has a
cleared `roomId`. -/
theorem leaveRoom_self_roomId_none (st : ServerState) (c : String)
    {ci : ClientInfo} (h : mapGet (leaveRoom st c).1.clients c = some ci) :
    ci.roomId = none := by
  cases hcl : mapGet st.clients c with
  | none =>
      rw [leaveRoom_unregistered st c hcl] at h
      rw [hcl] at h
      cases h
  | some client =>
  cases hrid : client.roomId with
  | none =>
      rw [leaveRoom_no_room st c client hcl hrid] at h
      rw [hcl] at h
      injection h with h
      subst h
      exact hrid
  | some roomId =>
  cases hroom : mapGet st.rooms roomId with
  | none =>
      rw [leaveRoom_eq_noroom st c client roomId hcl hrid hroom] at h
      dsimp only at h
      rw [mapGet_set_self] at h
      injection h with h
      subst h
      rfl
  | some room =>
      by_cases hlen : (setDelete room.clients c).length = 0
      · rw [leaveRoom_eq_delete st c client roomId room hcl hrid hroom hlen] at h
        dsimp only at h
        rw [mapGet_set_self] at h
        injection h with h
        subst h
        rfl
      · rw [leaveRoom_eq_bcast st c client roomId room hcl hrid hroom hlen] at h
        dsimp only at h
        rw [mapGet_set_self] at h
        injection h with h
        subst h
        rfl

/-- `leaveRoom` never touches rooms other than the one the client is in. -/
theorem leaveRoom_rooms_ne (st : ServerState) (c : String) (client : ClientInfo)
    (roomId : String) (hcl : mapGet st.clients c = some client)
    (hrid : client.roomId = some roomId) (rid : String) (hne : rid ≠ roomId) :
    mapGet (leaveRoom st c).1.rooms rid = mapGet st.rooms rid := by
  cases hroom : mapGet st.rooms roomId with
  | none => rw [leaveRoom_eq_noroom st c client roomId hcl hrid hroom]
  | some room =>
      by_cases hlen : (setDelete room.clients c).length = 0
      · rw [leaveRoom_eq_delete st c client roomId room hcl hrid hroom hlen]
        exact mapGet_del_ne _ _ _ hne
      · rw [leaveRoom_eq_bcast st c client roomId room hcl hrid hroom hlen]
        exact mapGet_set_ne _ _ _ _ hne

/-- Every message `leaveRoom` emits is a `peer-left` about the leaver, and
never goes back to the leaver. -/
theorem leaveRoom_sends (st : ServerState) (c : String) :
    ∀ s ∈ (leaveRoom st c).2,
      s.msg = ServerMsg.peerLeft c ∧ s.recipient ≠ c := by
  cases hcl : mapGet st.clients c with
  | none => rw [leaveRoom_unregistered st c hcl]; simp
  | some client =>
  cases hrid : client.roomId with
  | none => rw [leaveRoom_no_room st c client hcl hrid]; simp
  | some roomId =>
  cases hroom : mapGet st.rooms roomId with
  | none => rw [leaveRoom_eq_noroom st c client roomId hcl hrid hroom]; simp
  | some room =>
      by_cases hlen : (setDelete room.clients c).length = 0
      · rw [leaveRoom_eq_delete st c client roomId room hcl hrid hroom hlen]
        simp
      · rw [leaveRoom_eq_bcast st c client roomId room hcl hrid hroom hlen]
        intro s hs
        exact ⟨broadcastRoom_msg hs, broadcastRoom_not_excluded hs⟩

theorem leaveRoom_wellFormed (st : ServerState) (c : String)
    (hwf : WellFormed st) : WellFormed (leaveRoom st c).1 := by
  obtain ⟨hwc, hwr, hwm⟩ := hwf
  cases hcl : mapGet st.clients c with
  | none => rw [leaveRoom_unregistered st c hcl]; exact ⟨hwc, hwr, hwm⟩
  | some client =>
  cases hrid : client.roomId with
  | none => rw [leaveRoom_no_room st c client hcl hrid]; exact ⟨hwc, hwr, hwm⟩
  | some roomId =>
  cases hroom : mapGet st.rooms roomId with
  | none =>
      rw [leaveRoom_eq_noroom st c client roomId hcl hrid hroom]
      exact ⟨keysNodup_mapSet _ _ hwc, hwr, hwm⟩
  | some room =>
      by_cases hlen : (setDelete room.clients c).length = 0
      · rw [leaveRoom_eq_delete st c client roomId room hcl hrid hroom hlen]
        refine ⟨keysNodup_mapSet _ _ hwc, keysNodup_mapDelete _ hwr, ?_⟩
        intro p hp
        exact hwm p (mem_mapDelete.mp hp).1
      · rw [leaveRoom_eq_bcast st c client roomId room hcl hrid hroom hlen]
        refine ⟨keysNodup_mapSet _ _ hwc, keysNodup_mapSet _ _ hwr, ?_⟩
        intro p hp
        rcases mem_mapSet_weak hp with rfl | hp
        · exact setDelete_nodup (hwm (roomId, room) (mapGet_mem hroom))
        · exact hwm p hp

theorem leaveRoom_nonempty (st : ServerState) (c : String)
    (hne : NonemptyRooms st) : NonemptyRooms (leaveRoom st c).1 := by
  cases hcl : mapGet st.clients c with
  | none => rw [leaveRoom_unregistered st c hcl]; exact hne
  | some client =>
  cases hrid : client.roomId with
  | none => rw [leaveRoom_no_room st c client hcl hrid]; exact hne
  | some roomId =>
  cases hroom : mapGet st.rooms roomId with
  | none =>
      rw [leaveRoom_eq_noroom st c client roomId hcl hrid hroom]
      exact hne
  | some room =>
      by_cases hlen : (setDelete room.clients c).length = 0
      · rw [leaveRoom_eq_delete st c client roomId room hcl hrid hroom hlen]
        intro p hp
        exact hne p (mem_mapDelete.mp hp).1
      · rw [leaveRoom_eq_bcast st c client roomId room hcl hrid hroom hlen]
        intro p hp
        rcases mem_mapSet_weak hp with rfl | hp
        · intro hnil
          apply hlen
          have hdel : setDelete room.clients c = [] := hnil
          rw [hdel]
          rfl
        · exact hne p hp

theorem leaveRoom_consistent (st : ServerState) (c : String)
    (hwf : WellFormed st) (hcon : Consistent st) :
    Consistent (leaveRoom st c).1 := by
  cases hcl : mapGet st.clients c with
  | none => rw [leaveRoom_unregistered st c hcl]; exact hcon
  | some client =>
  cases hrid : client.roomId with
  | none => rw [leaveRoom_no_room st c client hcl hrid]; exact hcon
  | some roomId =>
  cases hroom : mapGet st.rooms roomId with
  | none =>
      rw [leaveRoom_eq_noroom st c client roomId hcl hrid hroom]
      intro p hp cid hcid
      by_cases hc : cid = c
      · subst hc
        have hkey := consistent_self_key hcl hrid (hcon p hp cid hcid)
        exact absurd hkey (mapGet_none_keys hroom p hp)
      · rw [memberOkB_congr (mapGet_set_ne _ _ _ _ hc)]
        exact hcon p hp cid hcid
  | some room =>
      by_cases hlen : (setDelete room.clients c).length = 0
      · rw [leaveRoom_eq_delete st c client roomId room hcl hrid hroom hlen]
        intro p hp cid hcid
        obtain ⟨hpm, hpk⟩ := mem_mapDelete.mp hp
        by_cases hc : cid = c
        · subst hc
          exact absurd (consistent_self_key hcl hrid (hcon p hpm cid hcid)) hpk
        · rw [memberOkB_congr (mapGet_set_ne _ _ _ _ hc)]
          exact hcon p hpm cid hcid
      · rw [leaveRoom_eq_bcast st c client roomId room hcl hrid hroom hlen]
        intro p hp cid hcid
        rcases mem_mapSet (hwf.2.1) hp with rfl | ⟨hpm, hpk⟩
        · obtain ⟨hin, hnc⟩ := mem_setDelete.mp hcid
          rw [memberOkB_congr (mapGet_set_ne _ _ _ _ hnc)]
          exact hcon (roomId, room) (mapGet_mem hroom) cid hin
        · by_cases hc : cid = c
          · subst hc
            exact absurd (consistent_self_key hcl hrid (hcon p hpm cid hcid)) hpk
          · rw [memberOkB_congr (mapGet_set_ne _ _ _ _ hc)]
            exact hcon p hpm cid hcid

theorem disconnect_wellFormed (st : ServerState) (c : String)
    (hwf : WellFormed st) : WellFormed (disconnectClient st c).1 := by
  obtain ⟨hwc, hwr, hwm⟩ := leaveRoom_wellFormed st c hwf
  exact ⟨keysNodup_mapDelete _ hwc, hwr, hwm⟩

theorem disconnect_nonempty (st : ServerState) (c : String)
    (hne : NonemptyRooms st) : NonemptyRooms (disconnectClient st c).1 :=
  leaveRoom_nonempty st c hne

theorem disconnect_consistent (st : ServerState) (c : String)
    (hwf : WellFormed st) (hcon : Consistent st) :
    Consistent (disconnectClient st c).1 := by
  have hcon1 := leaveRoom_consistent st c hwf hcon
  intro p hp cid hcid
  have hok := hcon1 p hp cid hcid
  by_cases hc : cid = c
  · subst hc
    obtain ⟨ci, hci, hcirid⟩ := memberOkB_iff.mp hok
    rw [leaveRoom_self_roomId_none st cid hci] at hcirid
    cases hcirid
  · rw [memberOkB_congr (mapGet_del_ne _ _ _ hc)]
    exact hok

/-!  Branch-equation lemmas for `handleJoinRoom`. -/

theorem hj_eq_required (st : ServerState) (c : String) (p : JoinRoomPayload)
    (h : (!truthyStr p.roomId || !truthyStr p.mode) = true) :
    handleJoinRoom st c p =
      (st, send st c
        (ServerMsg.errorMsg "roomId and mode are required to join a room.")) := by
  unfold handleJoinRoom; rw [if_pos h]

theorem hj_eq_unknown (st : ServerState) (c : String) (p : JoinRoomPayload)
    (hpass : ¬ (!truthyStr p.roomId || !truthyStr p.mode) = true)
    (hcl : mapGet st.clients c = none) :
    handleJoinRoom st c p = (st, []) := by
  unfold handleJoinRoom
  rw [if_neg hpass]
  dsimp only
  rw [hcl]

theorem hj_eq_leave (st : ServerState) (c : String) (p : JoinRoomPayload)
    (client : ClientInfo)
    (hpass : ¬ (!truthyStr p.roomId || !truthyStr p.mode) = true)
    (hcl : mapGet st.clients c = some client)
    (hsw : (client.roomId.isSome && client.roomId != some (p.roomId.getD "")) = true) :
    handleJoinRoom st c p =
      joinPhase2 (leaveRoom st c).1 (leaveRoom st c).2 c
        { client with roomId := none, role := none, mode := none }
        (p.roomId.getD "") (normalizeMode p.mode)
        (normalizeRole p.role (normalizeMode p.mode)) := by
  unfold handleJoinRoom
  rw [if_neg hpass]
  dsimp only
  rw [hcl]
  dsimp only
  rw [if_pos hsw]

theorem hj_eq_noleave (st : ServerState) (c : String) (p : JoinRoomPayload)
    (client : ClientInfo)
    (hpass : ¬ (!truthyStr p.roomId || !truthyStr p.mode) = true)
    (hcl : mapGet st.clients c = some client)
    (hsw : ¬ (client.roomId.isSome && client.roomId != some (p.roomId.getD "")) = true) :
    handleJoinRoom st c p =
      joinPhase2 st [] c client (p.roomId.getD "") (normalizeMode p.mode)
        (normalizeRole p.role (normalizeMode p.mode)) := by
  unfold handleJoinRoom
  rw [if_neg hpass]
  dsimp only
  rw [hcl]
  dsimp only
  rw [if_neg hsw]

theorem jp2_conflict (st1 : ServerState) (ls : List Sent) (c : String)
    (client1 : ClientInfo) (rid : String) (mode : RoomMode) (role : String)
    (room : RoomInfo) (hroom : mapGet st1.rooms rid = some room)
    (hmode : room.mode ≠ mode) :
    joinPhase2 st1 ls c client1 rid mode role =
      (st1, ls ++ send st1 c (ServerMsg.errorModeConflict
        "Room already exists with a different mode." room.mode mode)) := by
  unfold joinPhase2
  rw [hroom]
  dsimp only
  rw [if_pos hmode]

theorem jp2_same (st1 : ServerState) (ls : List Sent) (c : String)
    (client1 : ClientInfo) (rid : String) (mode : RoomMode) (role : String)
    (room : RoomInfo) (hroom : mapGet st1.rooms rid = some room)
    (hmode : room.mode = mode) :
    joinPhase2 st1 ls c client1 rid mode role =
      joinTail st1 ls c client1 rid mode role room := by
  unfold joinPhase2
  rw [hroom]
  dsimp only
  rw [if_neg (by rw [hmode]; exact fun h => h rfl)]

theorem jp2_new (st1 : ServerState) (ls : List Sent) (c : String)
    (client1 : ClientInfo) (rid : String) (mode : RoomMode) (role : String)
    (hroom : mapGet st1.rooms rid = none) :
    joinPhase2 st1 ls c client1 rid mode role =
      joinTail st1 ls c client1 rid mode role { mode := mode, clients := [] } := by
  unfold joinPhase2
  rw [hroom]

/-!  Structure of the `joinTail` result. -/

theorem joinTail_fst (st1 : ServerState) (ls : List Sent) (c : String)
    (client1 : ClientInfo) (rid : String) (mode : RoomMode) (role : String)
    (room : RoomInfo) :
    (joinTail st1 ls c client1 rid mode role room).1 =
      { clients := mapSet st1.clients c
          { client1 with roomId := some rid, mode := some mode, role := some role },
        rooms := mapSet st1.rooms rid
          { room with clients := setAdd room.clients c } } := rfl

theorem joinTail_snd (st1 : ServerState) (ls : List Sent) (c : String)
    (client1 : ClientInfo) (rid : String) (mode : RoomMode) (role : String)
    (room : RoomInfo) :
    (joinTail st1 ls c client1 rid mode role room).2 =
      ls ++ send (joinTail st1 ls c client1 rid mode role room).1 c
          (ServerMsg.roomJoined rid mode role
            (((setAdd room.clients c).filter (fun id => id != c)).filterMap
              (fun id =>
                (mapGet (joinTail st1 ls c client1 rid mode role room).1.clients
                    id).map
                  (fun q => (id, q.role)))))
        ++ broadcastRoom (joinTail st1 ls c client1 rid mode role room).1 rid
            (ServerMsg.peerJoined c role) (some c) := rfl


/-!  Invariant preservation through `joinTail` and `handleJoinRoom`. -/

theorem joinTail_wellFormed (st1 : ServerState) (ls : List Sent) (c : String)
    (client1 : ClientInfo) (rid : String) (mode : RoomMode) (role : String)
    (room : RoomInfo) (hwf : WellFormed st1) (hnd : room.clients.Nodup) :
    WellFormed (joinTail st1 ls c client1 rid mode role room).1 := by
  rw [joinTail_fst]
  refine ⟨keysNodup_mapSet _ _ hwf.1, keysNodup_mapSet _ _ hwf.2.1, ?_⟩
  intro p hp
  rcases mem_mapSet_weak hp with rfl | hp
  · exact setAdd_nodup hnd
  · exact hwf.2.2 p hp

theorem joinTail_nonempty (st1 : ServerState) (ls : List Sent) (c : String)
    (client1 : ClientInfo) (rid : String) (mode : RoomMode) (role : String)
    (room : RoomInfo) (hne : NonemptyRooms st1) :
    NonemptyRooms (joinTail st1 ls c client1 rid mode role room).1 := by
  rw [joinTail_fst]
  intro p hp
  rcases mem_mapSet_weak hp with rfl | hp
  · exact setAdd_ne_nil room.clients c
  · exact hne p hp

theorem joinTail_consistent (st1 : ServerState) (ls : List Sent) (c : String)
    (client1 : ClientInfo) (rid : String) (mode : RoomMode) (role : String)
    (room : RoomInfo) (hwf : WellFormed st1) (hcon : Consistent st1)
    (hroomsrc : mapGet st1.rooms rid = some room ∨ room.clients = [])
    (hself : ∀ ci, mapGet st1.clients c = some ci →
      ci.roomId = none ∨ ci.roomId = some rid) :
    Consistent (joinTail st1 ls c client1 rid mode role room).1 := by
  rw [joinTail_fst]
  intro p hp cid hcid
  rcases mem_mapSet hwf.2.1 hp with rfl | ⟨hpm, hpk⟩
  · by_cases hc : cid = c
    · subst hc
      rw [memberOkB_iff]
      exact ⟨_, mapGet_set_self _ _ _, rfl⟩
    · have hin : cid ∈ room.clients := by
        rcases mem_setAdd.mp hcid with h | h
        · exact h
        · exact absurd h hc
      rcases hroomsrc with hr | hempty
      · have hok := hcon (rid, room) (mapGet_mem hr) cid hin
        rw [memberOkB_congr (mapGet_set_ne _ _ _ _ hc)]
        exact hok
      · rw [hempty] at hin
        cases hin
  · by_cases hc : cid = c
    · subst hc
      have hok := hcon p hpm cid hcid
      obtain ⟨ci, hci, hcirid⟩ := memberOkB_iff.mp hok
      rcases hself ci hci with hnone | hsome
      · rw [hnone] at hcirid
        cases hcirid
      · rw [hsome] at hcirid
        injection hcirid with h1
        exact absurd h1.symm hpk
    · have hok := hcon p hpm cid hcid
      rw [memberOkB_congr (mapGet_set_ne _ _ _ _ hc)]
      exact hok

theorem handleJoinRoom_wellFormed (st : ServerState) (c : String)
    (p : JoinRoomPayload) (hwf : WellFormed st) :
    WellFormed (handleJoinRoom st c p).1 := by
  by_cases hreq : (!truthyStr p.roomId || !truthyStr p.mode) = true
  · rw [hj_eq_required st c p hreq]; exact hwf
  · cases hcl : mapGet st.clients c with
    | none => rw [hj_eq_unknown st c p hreq hcl]; exact hwf
    | some client =>
        have step2 : ∀ st1 ls client1, WellFormed st1 →
            WellFormed (joinPhase2 st1 ls c client1 (p.roomId.getD "")
              (normalizeMode p.mode)
              (normalizeRole p.role (normalizeMode p.mode))).1 := by
          intro st1 ls client1 hwf1
          cases hroom : mapGet st1.rooms (p.roomId.getD "") with
          | none =>
              rw [jp2_new _ _ _ _ _ _ _ hroom]
              exact joinTail_wellFormed _ _ _ _ _ _ _ _ hwf1 List.nodup_nil
          | some room =>
              by_cases hmode : room.mode = normalizeMode p.mode
              · rw [jp2_same _ _ _ _ _ _ _ _ hroom hmode]
                exact joinTail_wellFormed _ _ _ _ _ _ _ _ hwf1
                  (hwf1.2.2 _ (mapGet_mem hroom))
              · rw [jp2_conflict _ _ _ _ _ _ _ _ hroom hmode]
                exact hwf1
        by_cases hsw : (client.roomId.isSome &&
            client.roomId != some (p.roomId.getD "")) = true
        · rw [hj_eq_leave st c p client hreq hcl hsw]
          exact step2 _ _ _ (leaveRoom_wellFormed st c hwf)
        · rw [hj_eq_noleave st c p client hreq hcl hsw]
          exact step2 _ _ _ hwf

theorem handleJoinRoom_nonempty (st : ServerState) (c : String)
    (p : JoinRoomPayload) (hne : NonemptyRooms st) :
    NonemptyRooms (handleJoinRoom st c p).1 := by
  by_cases hreq : (!truthyStr p.roomId || !truthyStr p.mode) = true
  · rw [hj_eq_required st c p hreq]; exact hne
  · cases hcl : mapGet st.clients c with
    | none => rw [hj_eq_unknown st c p hreq hcl]; exact hne
    | some client =>
        have step2 : ∀ st1 ls client1, NonemptyRooms st1 →
            NonemptyRooms (joinPhase2 st1 ls c client1 (p.roomId.getD "")
              (normalizeMode p.mode)
              (normalizeRole p.role (normalizeMode p.mode))).1 := by
          intro st1 ls client1 hne1
          cases hroom : mapGet st1.rooms (p.roomId.getD "") with
          | none =>
              rw [jp2_new _ _ _ _ _ _ _ hroom]
              exact joinTail_nonempty _ _ _ _ _ _ _ _ hne1
          | some room =>
              by_cases hmode : room.mode = normalizeMode p.mode
              · rw [jp2_same _ _ _ _ _ _ _ _ hroom hmode]
                exact joinTail_nonempty _ _ _ _ _ _ _ _ hne1
              · rw [jp2_conflict _ _ _ _ _ _ _ _ hroom hmode]
                exact hne1
        by_cases hsw : (client.roomId.isSome &&
            client.roomId != some (p.roomId.getD "")) = true
        · rw [hj_eq_leave st c p client hreq hcl hsw]
          exact step2 _ _ _ (leaveRoom_nonempty st c hne)
        · rw [hj_eq_noleave st c p client hreq hcl hsw]
          exact step2 _ _ _ hne

theorem handleJoinRoom_consistent (st : ServerState) (c : String)
    (p : JoinRoomPayload) (hwf : WellFormed st) (hcon : Consistent st) :
    Consistent (handleJoinRoom st c p).1 := by
  by_cases hreq : (!truthyStr p.roomId || !truthyStr p.mode) = true
  · rw [hj_eq_required st c p hreq]; exact hcon
  · cases hcl : mapGet st.clients c with
    | none => rw [hj_eq_unknown st c p hreq hcl]; exact hcon
    | some client =>
        have step2 : ∀ st1 ls client1, WellFormed st1 → Consistent st1 →
            (∀ ci, mapGet st1.clients c = some ci →
              ci.roomId = none ∨ ci.roomId = some (p.roomId.getD "")) →
            Consistent (joinPhase2 st1 ls c client1 (p.roomId.getD "")
              (normalizeMode p.mode)
              (normalizeRole p.role (normalizeMode p.mode))).1 := by
          intro st1 ls client1 hwf1 hcon1 hself
          cases hroom : mapGet st1.rooms (p.roomId.getD "") with
          | none =>
              rw [jp2_new _ _ _ _ _ _ _ hroom]
              exact joinTail_consistent _ _ _ _ _ _ _ _ hwf1 hcon1
                (Or.inr rfl) hself
          | some room =>
              by_cases hmode : room.mode = normalizeMode p.mode
              · rw [jp2_same _ _ _ _ _ _ _ _ hroom hmode]
                exact joinTail_consistent _ _ _ _ _ _ _ _ hwf1 hcon1
                  (Or.inl hroom) hself
              · rw [jp2_conflict _ _ _ _ _ _ _ _ hroom hmode]
                exact hcon1
        by_cases hsw : (client.roomId.isSome &&
            client.roomId != some (p.roomId.getD "")) = true
        · rw [hj_eq_leave st c p client hreq hcl hsw]
          refine step2 _ _ _ (leaveRoom_wellFormed st c hwf)
            (leaveRoom_consistent st c hwf hcon) ?_
          intro ci hci
          exact Or.inl (leaveRoom_self_roomId_none st c hci)
        · rw [hj_eq_noleave st c p client hreq hcl hsw]
          refine step2 _ _ _ hwf hcon ?_
          intro ci hci
          rw [hcl] at hci
          injection hci with hci
          subst hci
          cases hx : client.roomId with
          | none => exact Or.inl rfl
          | some x =>
              right
              rw [Bool.and_eq_true] at hsw
              push_neg at hsw
              have hA : client.roomId.isSome = true := by rw [hx]; rfl
              have hB := hsw hA
              have hB' : (client.roomId != some (p.roomId.getD "")) = false := by
                cases hbb : (client.roomId != some (p.roomId.getD "")) with
                | false => rfl
                | true => exact absurd hbb hB
              rw [bne_eq_false_iff_eq] at hB'
              rw [hx] at hB'
              exact hB'

theorem consistent_atMostOne {st : ServerState} (hcon : Consistent st) :
    ∀ p ∈ st.rooms, ∀ q ∈ st.rooms, ∀ cid : String,
      cid ∈ p.2.clients → cid ∈ q.2.clients → p.1 = q.1 := by
  intro p hp q hq cid hcp hcq
  obtain ⟨ci, hci, hrid⟩ := memberOkB_iff.mp (hcon p hp cid hcp)
  obtain ⟨ci', hci', hrid'⟩ := memberOkB_iff.mp (hcon q hq cid hcq)
  rw [hci] at hci'
  injection hci' with h
  subst h
  rw [hrid] at hrid'
  exact Option.some.inj hrid'

theorem consistent_nullNoMember {st : ServerState} (hcon : Consistent st) :
    ∀ cid ci, mapGet st.clients cid = some ci → ci.roomId = none →
      ∀ p ∈ st.rooms, cid ∉ p.2.clients := by
  intro cid ci hci hnone p hp hmem
  obtain ⟨ci', hci', hrid'⟩ := memberOkB_iff.mp (hcon p hp cid hmem)
  rw [hci] at hci'
  injection hci' with h
  subst h
  rw [hnone] at hrid'
  cases hrid'

theorem truthyStr_some {s : String} (h : s ≠ "") : truthyStr (some s) = true := by
  simp [truthyStr, h]

theorem joinPass {R m : String} (hR : R ≠ "") (hm : m ≠ "") :
    ¬ (!truthyStr (some R) || !truthyStr (some m)) = true := by
  simp [truthyStr_some hR, truthyStr_some hm]

theorem setAdd_nil (c : String) : setAdd [] c = [c] := by
  simp [setAdd]

/-- C3: after every completed operation (join-room, signal, leave-room, ping,
disconnect) on a well-formed consistent state, the state stays well-formed and
consistent; every registered connection appears in the member set of at most
one room; whenever it appears in the member set of a room, its own recorded
`roomId` equals that room's id; and a connection whose recorded `roomId` is
`none` appears in no room's member set. -/
theorem membershipConsistencyPreserved (st : ServerState) (op : ServerOp)
    (hwf : WellFormed st) (hcon : Consistent st) :
    WellFormed (step st op).1 ∧ Consistent (step st op).1 ∧
    (∀ p ∈ (step st op).1.rooms, ∀ q ∈ (step st op).1.rooms, ∀ cid : String,
      cid ∈ p.2.clients → cid ∈ q.2.clients → p.1 = q.1) ∧
    (∀ cid ci, mapGet (step st op).1.clients cid = some ci → ci.roomId = none →
      ∀ p ∈ (step st op).1.rooms, cid ∉ p.2.clients) ∧
    (∀ rid room cid, mapGet (step st op).1.rooms rid = some room →
      cid ∈ room.clients →
      ∃ ci, mapGet (step st op).1.clients cid = some ci ∧
        ci.roomId = some rid) := by
  have hwf' : WellFormed (step st op).1 := by
    cases op with
    | joinRoom c p => exact handleJoinRoom_wellFormed st c p hwf
    | signal c p => exact hwf
    | leaveReq c => exact leaveRoom_wellFormed st c hwf
    | ping c now => exact hwf
    | disconnect c => exact disconnect_wellFormed st c hwf
  have hcon' : Consistent (step st op).1 := by
    cases op with
    | joinRoom c p => exact handleJoinRoom_consistent st c p hwf hcon
    | signal c p => exact hcon
    | leaveReq c => exact leaveRoom_consistent st c hwf hcon
    | ping c now => exact hcon
    | disconnect c => exact disconnect_consistent st c hwf hcon
  refine ⟨hwf', hcon', consistent_atMostOne hcon', ?_, ?_⟩
  · intro cid ci hci hnone
    exact consistent_nullNoMember hcon' cid ci hci hnone
  · intro rid room cid hroom hcid
    exact memberOkB_iff.mp (hcon' (rid, room) (mapGet_mem hroom) cid hcid)

/-- Witness for C3: a concrete well-formed consistent state and a join
operation, with all hypotheses discharged by evaluation. -/
theorem membershipConsistencyPreservedWitness :
    (WellFormed exStSplit ∧ Consistent exStSplit) ∧
      Consistent (step exStSplit (ServerOp.joinRoom "a"
        { roomId := some "r1", mode := some "call", role := none })).1 :=
  ⟨⟨by decide, by decide⟩,
    (membershipConsistencyPreserved exStSplit
      (ServerOp.joinRoom "a"
        { roomId := some "r1", mode := some "call", role := none })
      (by decide) (by decide)).2.1⟩

/-- C4: after every completed operation every retrievable room id maps to a
room with at least one member (the removal that would empty a member set
deletes the room in the same operation), and a join-room against an absent
room id creates a brand-new room carrying the join's normalized mode with the
joiner as only member, answered by a `room-joined` confirmation — no stale
mode conflict. -/
theorem nonemptyRoomsPreserved :
    (∀ st op, NonemptyRooms st → NonemptyRooms (step st op).1 ∧
      ∀ rid room, mapGet (step st op).1.rooms rid = some room →
        1 ≤ room.clients.length) ∧
    (∀ st c ci R room, mapGet st.clients c = some ci → ci.roomId = some R →
      mapGet st.rooms R = some room → setDelete room.clients c = [] →
      mapGet (leaveRoom st c).1.rooms R = none) ∧
    (∀ st c client R m role, mapGet st.rooms R = none → R ≠ "" → m ≠ "" →
      mapGet st.clients c = some client →
      mapGet (handleJoinRoom st c
          { roomId := some R, mode := some m, role := role }).1.rooms R =
        some { mode := normalizeMode (some m), clients := [c] } ∧
      Sent.mk c (ServerMsg.roomJoined R (normalizeMode (some m))
          (normalizeRole role (normalizeMode (some m))) []) ∈
        (handleJoinRoom st c
          { roomId := some R, mode := some m, role := role }).2) := by
  refine ⟨?_, ?_, ?_⟩
  · intro st op hne
    have hne' : NonemptyRooms (step st op).1 := by
      cases op with
      | joinRoom c p => exact handleJoinRoom_nonempty st c p hne
      | signal c p => exact hne
      | leaveReq c => exact leaveRoom_nonempty st c hne
      | ping c now => exact hne
      | disconnect c => exact disconnect_nonempty st c hne
    refine ⟨hne', ?_⟩
    intro rid room hroom
    have := hne' (rid, room) (mapGet_mem hroom)
    exact Nat.succ_le_of_lt (List.length_pos.mpr this)
  · intro st c ci R room hcl hrid hroom hdel
    rw [leaveRoom_eq_delete st c ci R room hcl hrid hroom (by rw [hdel]; rfl)]
    exact mapGet_del_self st.rooms R
  · intro st c client R m role hnoroom hR hm hcl
    have hpass : ¬ (!truthyStr (some R) || !truthyStr (some m)) = true :=
      joinPass hR hm
    have tail : ∀ st1 ls client1, mapGet st1.rooms R = none →
        mapGet (joinPhase2 st1 ls c client1 R (normalizeMode (some m))
            (normalizeRole role (normalizeMode (some m)))).1.rooms R =
          some { mode := normalizeMode (some m), clients := [c] } ∧
        Sent.mk c (ServerMsg.roomJoined R (normalizeMode (some m))
            (normalizeRole role (normalizeMode (some m))) []) ∈
          (joinPhase2 st1 ls c client1 R (normalizeMode (some m))
            (normalizeRole role (normalizeMode (some m)))).2 := by
      intro st1 ls client1 hn1
      rw [jp2_new _ _ _ _ _ _ _ hn1]
      constructor
      · rw [joinTail_fst]
        dsimp only
        rw [setAdd_nil]
        exact mapGet_set_self _ _ _
      · rw [joinTail_snd]
        dsimp only
        rw [setAdd_nil]
        have hsend := @send_some (joinTail st1 ls c client1 R
            (normalizeMode (some m))
            (normalizeRole role (normalizeMode (some m)))
            (RoomInfo.mk (normalizeMode (some m)) [])).1 c
          (ClientInfo.mk (some R) (some (normalizeMode (some m)))
            (some (normalizeRole role (normalizeMode (some m))))
            client1.connectedAt client1.ip)
          (mapGet_set_self st1.clients c
            (ClientInfo.mk (some R) (some (normalizeMode (some m)))
              (some (normalizeRole role (normalizeMode (some m))))
              client1.connectedAt client1.ip))
          (ServerMsg.roomJoined R (normalizeMode (some m))
            (normalizeRole role (normalizeMode (some m)))
            (([c].filter (fun id => id != c)).filterMap
              (fun id => (mapGet (joinTail st1 ls c client1 R
                  (normalizeMode (some m))
                  (normalizeRole role (normalizeMode (some m)))
                  (RoomInfo.mk (normalizeMode (some m)) [])).1.clients
                    id).map (fun q => (id, q.role)))))
        rw [hsend]
        simp
    by_cases hsw : (client.roomId.isSome && client.roomId != some R) = true
    · have hsw' : (client.roomId.isSome &&
          client.roomId != some ((some R : Option String).getD "")) = true := hsw
      rw [hj_eq_leave st c
        { roomId := some R, mode := some m, role := role } client hpass hcl hsw']
      have hn1 : mapGet (leaveRoom st c).1.rooms R = none := by
        cases hx : client.roomId with
        | none => rw [hx] at hsw; simp at hsw
        | some X =>
            have hXne : X ≠ R := by
              intro hXR
              subst hXR
              rw [hx] at hsw
              simp at hsw
            rw [leaveRoom_rooms_ne st c client X hcl hx R
              (by intro h; exact hXne h.symm)]
            exact hnoroom
      exact tail _ _ _ hn1
    · have hsw' : ¬ (client.roomId.isSome &&
          client.roomId != some ((some R : Option String).getD "")) = true := hsw
      rw [hj_eq_noleave st c
        { roomId := some R, mode := some m, role := role } client hpass hcl hsw']
      exact tail _ _ _ hnoroom

/-- Witness for C4: the preservation part at a concrete state and operation,
and the fresh-join part at a concrete absent room id. -/
theorem nonemptyRoomsPreservedWitness :
    NonemptyRooms exStTwo ∧
      NonemptyRooms (step exStTwo (ServerOp.leaveReq "a")).1 ∧
      mapGet (handleJoinRoom exStLone "a"
          { roomId := some "fresh", mode := some "stream", role := none }).1.rooms
          "fresh" =
        some { mode := RoomMode.stream, clients := ["a"] } :=
  ⟨by decide,
    (nonemptyRoomsPreserved.1 exStTwo (ServerOp.leaveReq "a") (by decide)).1,
    by
      have h := (nonemptyRoomsPreserved.2.2 exStLone "a" (exClient none none none)
        "fresh" "stream" none (by decide) (by decide) (by decide) (by decide)).1
      have hmode : normalizeMode (some "stream") = RoomMode.stream := by decide
      rw [hmode] at h
      exact h⟩

theorem filter_ne_length {l : List String} (hnd : l.Nodup) {a : String}
    (ha : a ∈ l) :
    (l.filter (fun y => y != a)).length + 1 = l.length := by
  induction l with
  | nil => cases ha
  | cons x t ih =>
      rw [List.nodup_cons] at hnd
      by_cases hx : x = a
      · subst hx
        have hft : t.filter (fun y => y != x) = t := by
          apply List.filter_eq_self.mpr
          intro y hy
          rw [bne_iff_ne]
          intro h
          subst h
          exact hnd.1 hy
        simp [List.filter_cons, hft]
      · have hmem : a ∈ t := by
          rcases List.mem_cons.mp ha with h | h
          · exact absurd h.symm hx
          · exact h
        have hxa : (x != a) = true := by rw [bne_iff_ne]; exact hx
        have hrec := ih hnd.2 hmem
        simp only [List.filter_cons, hxa, if_true, List.length_cons]
        omega

/-- C5: a room broadcast that excludes a sender who is a member of the room
reaches exactly the other `N−1` registered members — the recipient list is the
member set minus the sender, its length is `N−1` — and the sender is never
sent its own broadcast. -/
theorem broadcastSelfExclusion (st : ServerState) (rid : String)
    (msg : ServerMsg) (sender : String) (room : RoomInfo)
    (hroom : mapGet st.rooms rid = some room)
    (hnd : room.clients.Nodup)
    (hreg : ∀ id ∈ room.clients, (mapGet st.clients id).isSome)
    (hmem : sender ∈ room.clients) :
    (broadcastRoom st rid msg (some sender)).map Sent.recipient
        = room.clients.filter (fun y => y != sender) ∧
      (broadcastRoom st rid msg (some sender)).length + 1
        = room.clients.length ∧
      (∀ s ∈ broadcastRoom st rid msg (some sender),
        s.recipient ≠ sender ∧ s.msg = msg) := by
  have hrec := broadcastRoom_recipients msg sender hroom hreg
  refine ⟨hrec, ?_, ?_⟩
  · have hlen : (broadcastRoom st rid msg (some sender)).length
        = (room.clients.filter (fun y => y != sender)).length := by
      rw [← hrec, List.length_map]
    rw [hlen]
    exact filter_ne_length hnd hmem
  · intro s hs
    exact ⟨broadcastRoom_not_excluded hs, broadcastRoom_msg hs⟩

/-- Witness for C5: in the two-member room `"r1"`, a broadcast excluding
member `"a"` reaches exactly one socket. -/
theorem broadcastSelfExclusionWitness :
    mapGet exStTwo.rooms "r1"
        = some { mode := RoomMode.call, clients := ["a", "b"] } ∧
      (broadcastRoom exStTwo "r1" (ServerMsg.peerLeft "a") (some "a")).length + 1
        = 2 :=
  ⟨by decide, by
    have h := (broadcastSelfExclusion exStTwo "r1" (ServerMsg.peerLeft "a") "a"
      { mode := RoomMode.call, clients := ["a", "b"] }
      (by decide) (by decide) (by decide) (by decide)).2.1
    simpa using h⟩

/-- In a concatenation whose first part holds no `peer-joined` and whose
second part holds no `room-joined`, every `room-joined` index precedes every
`peer-joined` index. -/
theorem appendOrderedIndices {l1 l2 out : List Sent} (hout : out = l1 ++ l2)
    (h1 : ∀ s ∈ l1, isPeerJoined s.msg = false)
    (h2 : ∀ s ∈ l2, isRoomJoined s.msg = false)
    (i j : Nat) (hi : i < out.length) (hj : j < out.length)
    (hri : isRoomJoined (out.get ⟨i, hi⟩).msg = true)
    (hpj : isPeerJoined (out.get ⟨j, hj⟩).msg = true) : i < j := by
  subst hout
  have hli : i < l1.length := by
    by_contra hge
    push_neg at hge
    have hlt : i - l1.length < l2.length := by
      have hlen := hi
      rw [List.length_append] at hlen
      omega
    have hEq : (l1 ++ l2).get ⟨i, hi⟩ = l2.get ⟨i - l1.length, hlt⟩ := by
      rw [List.get_eq_getElem, List.get_eq_getElem]
      exact List.getElem_append_right hge
    rw [hEq] at hri
    have hfalse := h2 (l2.get ⟨i - l1.length, hlt⟩)
      (List.get_mem l2 (i - l1.length) hlt)
    rw [hfalse] at hri
    cases hri
  have hlj : l1.length ≤ j := by
    by_contra hlt
    push_neg at hlt
    have hEq : (l1 ++ l2).get ⟨j, hj⟩ = l1.get ⟨j, hlt⟩ := by
      rw [List.get_eq_getElem, List.get_eq_getElem]
      exact List.getElem_append_left hlt
    rw [hEq] at hpj
    have hfalse := h1 (l1.get ⟨j, hlt⟩) (List.get_mem l1 j hlt)
    rw [hfalse] at hpj
    cases hpj
  omega

theorem joinPhase2_confirm_before_peer (st1 : ServerState) (ls : List Sent)
    (c : String) (client1 : ClientInfo) (rid : String) (mode : RoomMode)
    (role : String) (hls : ∀ s ∈ ls, isPeerJoined s.msg = false) :
    ∃ l1 l2, (joinPhase2 st1 ls c client1 rid mode role).2 = l1 ++ l2 ∧
      (∀ s ∈ l1, isPeerJoined s.msg = false) ∧
      (∀ s ∈ l2, isRoomJoined s.msg = false) := by
  have tail : ∀ room, ∃ l1 l2,
      (joinTail st1 ls c client1 rid mode role room).2 = l1 ++ l2 ∧
      (∀ s ∈ l1, isPeerJoined s.msg = false) ∧
      (∀ s ∈ l2, isRoomJoined s.msg = false) := by
    intro room
    rw [joinTail_snd]
    refine ⟨_, _, rfl, ?_, ?_⟩
    · intro s hs
      rcases List.mem_append.mp hs with hs | hs
      · exact hls s hs
      · rw [(send_mem hs).2]
        rfl
    · intro s hs
      rw [broadcastRoom_msg hs]
      rfl
  cases hroom : mapGet st1.rooms rid with
  | none =>
      rw [jp2_new _ _ _ _ _ _ _ hroom]
      exact tail _
  | some room =>
      by_cases hmode : room.mode = mode
      · rw [jp2_same _ _ _ _ _ _ _ _ hroom hmode]
        exact tail _
      · rw [jp2_conflict _ _ _ _ _ _ _ _ hroom
          (by intro h; exact hmode h)]
        refine ⟨ls ++ send st1 c (ServerMsg.errorModeConflict
          "Room already exists with a different mode." room.mode mode), [],
          (List.append_nil _).symm, ?_, by simp⟩
        intro s hs
        rcases List.mem_append.mp hs with hs | hs
        · exact hls s hs
        · rw [(send_mem hs).2]
          rfl

/-- C6: in the message sequence produced by one `handleJoinRoom` invocation,
every `room-joined` confirmation precedes every `peer-joined` notification,
so the joining client's confirmation is sent before the broadcast about it. -/
theorem joinConfirmationPrecedesPeerJoined (st : ServerState) (c : String)
    (p : JoinRoomPayload) (i j : Nat)
    (hi : i < (handleJoinRoom st c p).2.length)
    (hj : j < (handleJoinRoom st c p).2.length)
    (hri : isRoomJoined (((handleJoinRoom st c p).2).get ⟨i, hi⟩).msg = true)
    (hpj : isPeerJoined (((handleJoinRoom st c p).2).get ⟨j, hj⟩).msg = true) :
    i < j := by
  obtain ⟨l1, l2, hout, h1, h2⟩ : ∃ l1 l2,
      (handleJoinRoom st c p).2 = l1 ++ l2 ∧
      (∀ s ∈ l1, isPeerJoined s.msg = false) ∧
      (∀ s ∈ l2, isRoomJoined s.msg = false) := by
    by_cases hreq : (!truthyStr p.roomId || !truthyStr p.mode) = true
    · rw [hj_eq_required st c p hreq]
      refine ⟨_, [], (List.append_nil _).symm, ?_, by simp⟩
      intro s hs
      rw [(send_mem hs).2]
      rfl
    · cases hcl : mapGet st.clients c with
      | none =>
          rw [hj_eq_unknown st c p hreq hcl]
          exact ⟨[], [], rfl, by simp, by simp⟩
      | some client =>
          by_cases hsw : (client.roomId.isSome &&
              client.roomId != some (p.roomId.getD "")) = true
          · rw [hj_eq_leave st c p client hreq hcl hsw]
            refine joinPhase2_confirm_before_peer _ _ _ _ _ _ _ ?_
            intro s hs
            rw [(leaveRoom_sends st c s hs).1]
            rfl
          · rw [hj_eq_noleave st c p client hreq hcl hsw]
            exact joinPhase2_confirm_before_peer _ _ _ _ _ _ _ (by simp)
  exact appendOrderedIndices hout h1 h2 i j hi hj hri hpj

/-- Witness for C6: client `"a"` joins `"r1"` next to `"b"`; the confirmation
sits at index 0 and the `peer-joined` notification at index 1. -/
theorem joinConfirmationPrecedesPeerJoinedWitness :
    isRoomJoined (((handleJoinRoom exStHost "a"
        { roomId := some "r1", mode := some "call", role := none }).2).get
        ⟨0, by decide⟩).msg = true ∧
    isPeerJoined (((handleJoinRoom exStHost "a"
        { roomId := some "r1", mode := some "call", role := none }).2).get
        ⟨1, by decide⟩).msg = true ∧
    (0 : Nat) < 1 :=
  ⟨by decide, by decide,
    joinConfirmationPrecedesPeerJoined exStHost "a"
      { roomId := some "r1", mode := some "call", role := none } 0 1
      (by decide) (by decide) (by decide) (by decide)⟩

/-- C7: `handleJoinRoom` never rejects an unrecognized mode — the value
`"stream"` normalizes to stream mode and every other value normalizes to the
default call mode; an absent role defaults to `"viewer"` in stream mode and
`"participant"` otherwise; and a join-room whose (truthy) mode is any
unrecognized string behaves exactly like one carrying `"call"`. -/
theorem modeNormalizationPermissive :
    normalizeMode (some "stream") = RoomMode.stream ∧
    (∀ mval : Option String, mval ≠ some "stream" →
      normalizeMode mval = RoomMode.call) ∧
    (normalizeRole none RoomMode.stream = "viewer" ∧
      normalizeRole none RoomMode.call = "participant") ∧
    (∀ st c R m role, m ≠ "" → m ≠ "stream" →
      handleJoinRoom st c { roomId := R, mode := some m, role := role } =
        handleJoinRoom st c { roomId := R, mode := some "call", role := role }) := by
  refine ⟨rfl, ?_, ⟨rfl, rfl⟩, ?_⟩
  · intro mval hm
    unfold normalizeMode
    rw [if_neg hm]
  · intro st c R m role hm hms
    have h1 : truthyStr (some m) = truthyStr (some "call") := by
      rw [truthyStr_some hm]
      rfl
    have h2 : normalizeMode (some m) = normalizeMode (some "call") := by
      unfold normalizeMode
      rw [if_neg (by simp [hms]), if_neg (by simp)]
    unfold handleJoinRoom
    dsimp only
    rw [h1, h2]

/-- Witness for C7: the unrecognized mode `"webinar"` folds to call mode and
the whole join behaves as a `"call"` join. -/
theorem modeNormalizationPermissiveWitness :
    (some "webinar" : Option String) ≠ some "stream" ∧
    normalizeMode (some "webinar") = RoomMode.call ∧
    handleJoinRoom exStLone "a"
        { roomId := some "r1", mode := some "webinar", role := none } =
      handleJoinRoom exStLone "a"
        { roomId := some "r1", mode := some "call", role := none } :=
  ⟨by decide, modeNormalizationPermissive.2.1 (some "webinar") (by decide),
    modeNormalizationPermissive.2.2.2 exStLone "a" (some "r1") "webinar" none
      (by decide) (by decide)⟩

theorem leaveRoom_clients_self_eq (st : ServerState) (c : String)
    (client : ClientInfo) (X : String) (hcl : mapGet st.clients c = some client)
    (hx : client.roomId = some X) :
    mapGet (leaveRoom st c).1.clients c =
      some { client with roomId := none, role := none, mode := none } := by
  cases hroom : mapGet st.rooms X with
  | none =>
      rw [leaveRoom_eq_noroom st c client X hcl hx hroom]
      exact mapGet_set_self _ _ _
  | some room =>
      by_cases hlen : (setDelete room.clients c).length = 0
      · rw [leaveRoom_eq_delete st c client X room hcl hx hroom hlen]
        exact mapGet_set_self _ _ _
      · rw [leaveRoom_eq_bcast st c client X room hcl hx hroom hlen]
        exact mapGet_set_self _ _ _

/-- Counterexample to C1 as stated: client `"a"` is joined to the different
room `"x1"`; its mode-conflicting join against `"r1"` DOES mutate state — the
handler first leaves `"x1"` (which deletes it) and clears `"a"`'s recorded
`roomId`/`mode`/`role` — before replying with the conflict error. -/
theorem joinModeConflictMutatesOnRoomSwitch :
    (mapGet exStSplit.clients "a").map ClientInfo.roomId = some (some "x1") ∧
    (mapGet (handleJoinRoom exStSplit "a"
        { roomId := some "r1", mode := some "stream", role := none }).1.clients
        "a").map ClientInfo.roomId = some none ∧
    mapGet (handleJoinRoom exStSplit "a"
        { roomId := some "r1", mode := some "stream", role := none }).1.rooms
        "x1" = none ∧
    (handleJoinRoom exStSplit "a"
        { roomId := some "r1", mode := some "stream", role := none }).2 =
      [Sent.mk "a" (ServerMsg.errorModeConflict
        "Room already exists with a different mode." RoomMode.call
        RoomMode.stream)] := by decide

/-- C1 (amended): a join against room R whose normalized mode conflicts with
R's mode is answered with the error carrying `expectedMode = R.mode` and
`receivedMode = M'`, and R's directory entry is unchanged.  Provided the
connection was not previously joined to a different room, no state is mutated
at all and that error is the only message sent.  If the connection was joined
to a different room X, the handler first performs the ordinary leave of X
(whose messages are only `peer-left` notifications) and then sends the same
conflict error. -/
theorem joinModeConflictReply (st : ServerState) (c : String) (R m : String)
    (role : Option String) (room : RoomInfo) (client : ClientInfo)
    (hR : R ≠ "") (hm : m ≠ "")
    (hroom : mapGet st.rooms R = some room)
    (hconf : normalizeMode (some m) ≠ room.mode)
    (hcl : mapGet st.clients c = some client) :
    mapGet (handleJoinRoom st c
        { roomId := some R, mode := some m, role := role }).1.rooms R
      = some room ∧
    ((client.roomId = none ∨ client.roomId = some R) →
      handleJoinRoom st c { roomId := some R, mode := some m, role := role }
        = (st, [Sent.mk c (ServerMsg.errorModeConflict
            "Room already exists with a different mode." room.mode
            (normalizeMode (some m)))])) ∧
    (∀ X, client.roomId = some X → X ≠ R →
      (handleJoinRoom st c { roomId := some R, mode := some m, role := role }
        = ((leaveRoom st c).1, (leaveRoom st c).2 ++
            [Sent.mk c (ServerMsg.errorModeConflict
              "Room already exists with a different mode." room.mode
              (normalizeMode (some m)))])) ∧
      (∀ s ∈ (leaveRoom st c).2, s.msg = ServerMsg.peerLeft c)) := by
  have hpass : ¬ (!truthyStr (some R) || !truthyStr (some m)) = true :=
    joinPass hR hm
  by_cases hsw : (client.roomId.isSome && client.roomId != some R) = true
  · -- previously joined to a different room X
    have hX : ∃ X, client.roomId = some X ∧ X ≠ R := by
      cases hx : client.roomId with
      | none => rw [hx] at hsw; simp at hsw
      | some X =>
          refine ⟨X, rfl, ?_⟩
          intro hXR
          subst hXR
          rw [hx] at hsw
          simp at hsw
    obtain ⟨X, hx, hXR⟩ := hX
    have hsw' : (client.roomId.isSome &&
        client.roomId != some ((some R : Option String).getD "")) = true := hsw
    have hrooms1 : mapGet (leaveRoom st c).1.rooms R = some room := by
      rw [leaveRoom_rooms_ne st c client X hcl hx R
        (fun h => hXR h.symm)]
      exact hroom
    have heq : handleJoinRoom st c
        { roomId := some R, mode := some m, role := role }
        = ((leaveRoom st c).1, (leaveRoom st c).2 ++
            [Sent.mk c (ServerMsg.errorModeConflict
              "Room already exists with a different mode." room.mode
              (normalizeMode (some m)))]) := by
      rw [hj_eq_leave st c
        { roomId := some R, mode := some m, role := role } client hpass hcl hsw']
      dsimp only
      simp only [Option.getD_some]
      rw [jp2_conflict _ _ _ _ _ _ _ _ hrooms1 (Ne.symm hconf)]
      rw [send_some (leaveRoom_clients_self_eq st c client X hcl hx)]
    refine ⟨?_, ?_, ?_⟩
    · rw [heq]
      exact hrooms1
    · intro hpre
      rcases hpre with hpre | hpre
      · rw [hpre] at hx; cases hx
      · rw [hpre] at hx
        injection hx with hx
        exact absurd hx.symm hXR
    · intro X' hx' hXR'
      exact ⟨heq, fun s hs => (leaveRoom_sends st c s hs).1⟩
  · -- not previously joined, or joined to R itself
    have hsw' : ¬ (client.roomId.isSome &&
        client.roomId != some ((some R : Option String).getD "")) = true := hsw
    have heq : handleJoinRoom st c
        { roomId := some R, mode := some m, role := role }
        = (st, [Sent.mk c (ServerMsg.errorModeConflict
            "Room already exists with a different mode." room.mode
            (normalizeMode (some m)))]) := by
      rw [hj_eq_noleave st c
        { roomId := some R, mode := some m, role := role } client hpass hcl hsw']
      dsimp only
      simp only [Option.getD_some]
      rw [jp2_conflict _ _ _ _ _ _ _ _ hroom (Ne.symm hconf)]
      rw [send_some hcl]
      rfl
    refine ⟨?_, fun _ => heq, ?_⟩
    · rw [heq]
      exact hroom
    · intro X hx hXR
      exfalso
      rw [Bool.and_eq_true] at hsw
      push_neg at hsw
      have hA : client.roomId.isSome = true := by rw [hx]; rfl
      have hB := hsw hA
      have hB' : (client.roomId != some R) = false := by
        cases hbb : (client.roomId != some R) with
        | false => rfl
        | true => exact absurd hbb hB
      rw [bne_eq_false_iff_eq] at hB'
      rw [hx] at hB'
      injection hB' with hB'
      exact hXR hB'

/-- Witness for C1 (amended): member `"a"` of call-room `"r1"` requests a
stream-mode join of the same room; the state is unchanged and only the
conflict error is sent. -/
theorem joinModeConflictReplyWitness :
    mapGet (handleJoinRoom exStTwo "a"
        { roomId := some "r1", mode := some "stream", role := none }).1.rooms
        "r1" = some { mode := RoomMode.call, clients := ["a", "b"] } ∧
    handleJoinRoom exStTwo "a"
        { roomId := some "r1", mode := some "stream", role := none }
      = (exStTwo, [Sent.mk "a" (ServerMsg.errorModeConflict
          "Room already exists with a different mode." RoomMode.call
          (normalizeMode (some "stream")))]) :=
  ⟨(joinModeConflictReply exStTwo "a" "r1" "stream" none
      { mode := RoomMode.call, clients := ["a", "b"] }
      (exClient (some "r1") (some RoomMode.call) (some "participant"))
      (by decide) (by decide) (by decide) (by decide) (by decide)).1,
    (joinModeConflictReply exStTwo "a" "r1" "stream" none
      { mode := RoomMode.call, clients := ["a", "b"] }
      (exClient (some "r1") (some RoomMode.call) (some "participant"))
      (by decide) (by decide) (by decide) (by decide) (by decide)).2.1
      (Or.inr (by decide))⟩

theorem filterMapParticipants (cs : List (String × ClientInfo))
    (l : List String) (hreg : ∀ id ∈ l, (mapGet cs id).isSome) :
    (l.filterMap (fun id => (mapGet cs id).map (fun q => (id, q.role)))).map
      Prod.fst = l := by
  induction l with
  | nil => simp
  | cons id t ih =>
      obtain ⟨ci, hci⟩ :=
        Option.isSome_iff_exists.mp (hreg id (List.mem_cons_self _ _))
      have ht : ∀ x ∈ t, (mapGet cs x).isSome :=
        fun x hx => hreg x (List.mem_cons_of_mem _ hx)
      simp [List.filterMap_cons, hci, ih ht]

/-- C10: a second join-room from a connection already joined to room R,
naming R with a mode that normalizes to R's mode, performs no leave-cleanup:
R's member set is unchanged (membership add is idempotent) and every other
room and client record is untouched; the connection's role is overwritten
with the newly supplied or defaulted role; the joiner receives a fresh
`room-joined` reply listing the other members; every other member receives
another `peer-joined` notification; and no `peer-left` is emitted. -/
theorem rejoinSameRoomIdempotent (st : ServerState) (c R m : String)
    (role : Option String) (room : RoomInfo) (client : ClientInfo)
    (hR : R ≠ "") (hm : m ≠ "")
    (hcl : mapGet st.clients c = some client)
    (hcr : client.roomId = some R)
    (hroom : mapGet st.rooms R = some room)
    (hmode : normalizeMode (some m) = room.mode)
    (hmem : c ∈ room.clients)
    (hreg : ∀ id ∈ room.clients, (mapGet st.clients id).isSome) :
    mapGet (handleJoinRoom st c
        { roomId := some R, mode := some m, role := role }).1.rooms R
      = some room ∧
    (∀ R', R' ≠ R → mapGet (handleJoinRoom st c
        { roomId := some R, mode := some m, role := role }).1.rooms R'
      = mapGet st.rooms R') ∧
    mapGet (handleJoinRoom st c
        { roomId := some R, mode := some m, role := role }).1.clients c
      = some (ClientInfo.mk (some R) (some room.mode)
          (some (normalizeRole role room.mode))
          client.connectedAt client.ip) ∧
    (∀ c', c' ≠ c → mapGet (handleJoinRoom st c
        { roomId := some R, mode := some m, role := role }).1.clients c'
      = mapGet st.clients c') ∧
    (∃ parts rest, (handleJoinRoom st c
        { roomId := some R, mode := some m, role := role }).2
        = Sent.mk c (ServerMsg.roomJoined R room.mode
            (normalizeRole role room.mode) parts) :: rest ∧
      parts.map Prod.fst = room.clients.filter (fun y => y != c) ∧
      rest.map Sent.recipient = room.clients.filter (fun y => y != c) ∧
      (∀ s ∈ rest,
        s.msg = ServerMsg.peerJoined c (normalizeRole role room.mode))) ∧
    (∀ s ∈ (handleJoinRoom st c
        { roomId := some R, mode := some m, role := role }).2,
      isPeerLeft s.msg = false) := by
  have hpass := joinPass hR hm
  have hsw : ¬ (client.roomId.isSome &&
      client.roomId != some ((some R : Option String).getD "")) = true := by
    rw [hcr]
    simp [Option.getD_some]
  have heq : handleJoinRoom st c
      { roomId := some R, mode := some m, role := role }
      = joinTail st [] c client R room.mode
          (normalizeRole role room.mode) room := by
    rw [hj_eq_noleave st c
      { roomId := some R, mode := some m, role := role } client hpass hcl hsw]
    dsimp only
    simp only [Option.getD_some]
    rw [jp2_same _ _ _ _ _ _ _ _ hroom hmode.symm]
    rw [hmode]
  have hfst : (joinTail st [] c client R room.mode
      (normalizeRole role room.mode) room).1
      = ServerState.mk
          (mapSet st.clients c (ClientInfo.mk (some R) (some room.mode)
            (some (normalizeRole role room.mode)) client.connectedAt client.ip))
          (mapSet st.rooms R room) := by
    rw [joinTail_fst]
    rw [setAdd_of_mem hmem]
  have hself : mapGet (joinTail st [] c client R room.mode
      (normalizeRole role room.mode) room).1.clients c
      = some (ClientInfo.mk (some R) (some room.mode)
          (some (normalizeRole role room.mode)) client.connectedAt client.ip) := by
    rw [hfst]
    exact mapGet_set_self _ _ _
  have hother : ∀ id, id ≠ c → mapGet (joinTail st [] c client R room.mode
      (normalizeRole role room.mode) room).1.clients id = mapGet st.clients id := by
    intro id h
    rw [hfst]
    exact mapGet_set_ne _ _ _ _ h
  have hrooms2 : mapGet (joinTail st [] c client R room.mode
      (normalizeRole role room.mode) room).1.rooms R = some room := by
    rw [hfst]
    exact mapGet_set_self _ _ _
  have hreg2 : ∀ id ∈ room.clients,
      (mapGet (joinTail st [] c client R room.mode
        (normalizeRole role room.mode) room).1.clients id).isSome := by
    intro id hid
    by_cases h : id = c
    · subst h
      rw [hself]
      rfl
    · rw [hother id h]
      exact hreg id hid
  refine ⟨?_, ?_, ?_, ?_, ?_, ?_⟩
  · rw [heq]
    exact hrooms2
  · intro R' h
    rw [heq, hfst]
    exact mapGet_set_ne _ _ _ _ h
  · rw [heq]
    exact hself
  · intro c' h
    rw [heq]
    exact hother c' h
  · refine ⟨((setAdd room.clients c).filter (fun id => id != c)).filterMap
        (fun id => (mapGet (joinTail st [] c client R room.mode
          (normalizeRole role room.mode) room).1.clients id).map
          (fun q => (id, q.role))),
      broadcastRoom (joinTail st [] c client R room.mode
        (normalizeRole role room.mode) room).1 R
        (ServerMsg.peerJoined c (normalizeRole role room.mode)) (some c),
      ?_, ?_, ?_, ?_⟩
    · rw [heq, joinTail_snd]
      rw [send_some hself]
      rfl
    · rw [setAdd_of_mem hmem]
      apply filterMapParticipants
      intro id hid
      exact hreg2 id (List.mem_filter.mp hid).1
    · exact broadcastRoom_recipients
        (ServerMsg.peerJoined c (normalizeRole role room.mode)) c hrooms2 hreg2
    · intro s hs
      exact broadcastRoom_msg hs
  · intro s hs
    rw [heq, joinTail_snd] at hs
    rcases List.mem_append.mp hs with hs | hs
    · rcases List.mem_append.mp hs with hs | hs
      · cases hs
      · rw [(send_mem hs).2]
        rfl
    · rw [broadcastRoom_msg hs]
      rfl

/-- Witness for C10: member `"a"` of `"r1"` re-joins `"r1"` in call mode with
role `"host"`; the member set is unchanged and the role is overwritten. -/
theorem rejoinSameRoomIdempotentWitness :
    mapGet (handleJoinRoom exStTwo "a"
        { roomId := some "r1", mode := some "call", role := some "host" }).1.rooms
        "r1" = some { mode := RoomMode.call, clients := ["a", "b"] } ∧
    mapGet (handleJoinRoom exStTwo "a"
        { roomId := some "r1", mode := some "call", role := some "host" }).1.clients
        "a" = some (ClientInfo.mk (some "r1") (some RoomMode.call)
          (some (normalizeRole (some "host") RoomMode.call)) 0 none) :=
  ⟨(rejoinSameRoomIdempotent exStTwo "a" "r1" "call" (some "host")
      { mode := RoomMode.call, clients := ["a", "b"] }
      (exClient (some "r1") (some RoomMode.call) (some "participant"))
      (by decide) (by decide) (by decide) (by decide) (by decide) (by decide)
      (by decide) (by decide)).1,
    (rejoinSameRoomIdempotent exStTwo "a" "r1" "call" (some "host")
      { mode := RoomMode.call, clients := ["a", "b"] }
      (exClient (some "r1") (some RoomMode.call) (some "participant"))
      (by decide) (by decide) (by decide) (by decide) (by decide) (by decide)
      (by decide) (by decide)).2.2.1⟩

/-!  Branch-equation lemmas for `handleSignal`. -/

theorem hs_eq_required (st : ServerState) (c : String) (p : SignalPayloadM)
    (hcond : (!truthyStr p.roomId || decide (p.signal = none)) = true) :
    handleSignal st c p = send st c (ServerMsg.errorMsg
      "Signal payload must include roomId and signal data.") := by
  unfold handleSignal
  rw [if_pos hcond]

theorem hs_eq_notInRoom (st : ServerState) (c : String) (p : SignalPayloadM)
    (sender : ClientInfo)
    (hcond : ¬ (!truthyStr p.roomId || decide (p.signal = none)) = true)
    (hcl : mapGet st.clients c = some sender)
    (hne : sender.roomId ≠ some (p.roomId.getD "")) :
    handleSignal st c p = send st c (ServerMsg.errorMsg
      "You are not part of the specified room.") := by
  unfold handleSignal
  rw [if_neg hcond]
  dsimp only
  rw [hcl]
  dsimp only
  rw [if_pos hne]

theorem hs_eq_targetMissing (st : ServerState) (c : String) (p : SignalPayloadM)
    (sender : ClientInfo)
    (hcond : ¬ (!truthyStr p.roomId || decide (p.signal = none)) = true)
    (hcl : mapGet st.clients c = some sender)
    (hin : sender.roomId = some (p.roomId.getD ""))
    (ht : truthyStr p.targetClientId = true)
    (htm : mapGet st.clients (p.targetClientId.getD "") = none) :
    handleSignal st c p = send st c (ServerMsg.errorMsg
      "Target client is not part of this room.") := by
  unfold handleSignal
  rw [if_neg hcond]
  dsimp only
  rw [hcl]
  dsimp only
  rw [if_neg (fun h => h hin), if_pos ht]
  try dsimp only
  rw [htm]

theorem hs_eq_targetElsewhere (st : ServerState) (c : String)
    (p : SignalPayloadM) (sender target : ClientInfo)
    (hcond : ¬ (!truthyStr p.roomId || decide (p.signal = none)) = true)
    (hcl : mapGet st.clients c = some sender)
    (hin : sender.roomId = some (p.roomId.getD ""))
    (ht : truthyStr p.targetClientId = true)
    (htm : mapGet st.clients (p.targetClientId.getD "") = some target)
    (hto : target.roomId ≠ some (p.roomId.getD "")) :
    handleSignal st c p = send st c (ServerMsg.errorMsg
      "Target client is not part of this room.") := by
  unfold handleSignal
  rw [if_neg hcond]
  dsimp only
  rw [hcl]
  dsimp only
  rw [if_neg (fun h => h hin), if_pos ht]
  try dsimp only
  rw [htm]
  try dsimp only
  rw [if_pos hto]

theorem hs_eq_targetOk (st : ServerState) (c : String) (p : SignalPayloadM)
    (sender target : ClientInfo)
    (hcond : ¬ (!truthyStr p.roomId || decide (p.signal = none)) = true)
    (hcl : mapGet st.clients c = some sender)
    (hin : sender.roomId = some (p.roomId.getD ""))
    (ht : truthyStr p.targetClientId = true)
    (htm : mapGet st.clients (p.targetClientId.getD "") = some target)
    (hto : target.roomId = some (p.roomId.getD "")) :
    handleSignal st c p = [Sent.mk (p.targetClientId.getD "")
      (ServerMsg.signalMsg (p.roomId.getD "") c (p.signal.getD JSValue.vnull))] := by
  unfold handleSignal
  rw [if_neg hcond]
  dsimp only
  rw [hcl]
  dsimp only
  rw [if_neg (fun h => h hin), if_pos ht]
  try dsimp only
  rw [htm]
  try dsimp only
  rw [if_neg (fun h => h hto)]

theorem hs_eq_broadcast (st : ServerState) (c : String) (p : SignalPayloadM)
    (sender : ClientInfo)
    (hcond : ¬ (!truthyStr p.roomId || decide (p.signal = none)) = true)
    (hcl : mapGet st.clients c = some sender)
    (hin : sender.roomId = some (p.roomId.getD ""))
    (ht : truthyStr p.targetClientId = false) :
    handleSignal st c p = broadcastRoom st (p.roomId.getD "")
      (ServerMsg.signalMsg (p.roomId.getD "") c (p.signal.getD JSValue.vnull))
      (some c) := by
  unfold handleSignal
  rw [if_neg hcond]
  dsimp only
  rw [hcl]
  dsimp only
  rw [if_neg (fun h => h hin), if_neg (by rw [ht]; exact Bool.false_ne_true)]

/-- Counterexample to C2 as stated: the payload gives `targetClientId = ""`,
which is not a registered connection, so per the claim the server should
reply to the sender with an error and deliver nothing; instead `handleSignal`
treats the empty string as absent (JS falsiness) and broadcasts the signal to
the other room member `"b"`. -/
theorem signalEmptyTargetBroadcasts :
    mapGet exStTwo.clients "" = none ∧
    handleSignal exStTwo "a"
        (SignalPayloadM.mk (some "r1") (some "") (some (JSValue.vobj [])))
      = [Sent.mk "b" (ServerMsg.signalMsg "r1" "a" (JSValue.vobj []))] := by
  decide

/-- C2 (amended): for a registered sender, `handleSignal` relays iff the
payload has a truthy `roomId`, a present `signal` (any value, including an
empty object), the sender's recorded `roomId` equals the stated room id, and
— when a truthy (non-empty) `targetClientId` is given — that target is a
registered connection recorded in the same room; an empty-string
`targetClientId` is treated as absent, so the signal is broadcast to the
other room members.  In every failing case exactly one error envelope is sent
to the sender and nothing is delivered to anyone else; in the targeted
success case `{roomId, senderId, signal}` is delivered to exactly the named
target; in the broadcast case it is delivered to the other room members only,
never back to the sender. -/
theorem signalRoutingCharacterization (st : ServerState) (c : String)
    (p : SignalPayloadM) (sender : ClientInfo)
    (hcl : mapGet st.clients c = some sender) :
    ((truthyStr p.roomId = false ∨ p.signal = none) →
      handleSignal st c p = [Sent.mk c (ServerMsg.errorMsg
        "Signal payload must include roomId and signal data.")]) ∧
    (∀ R v, p.roomId = some R → R ≠ "" → p.signal = some v →
      sender.roomId ≠ some R →
      handleSignal st c p = [Sent.mk c (ServerMsg.errorMsg
        "You are not part of the specified room.")]) ∧
    (∀ R v t, p.roomId = some R → R ≠ "" → p.signal = some v →
      sender.roomId = some R → p.targetClientId = some t → t ≠ "" →
      (∀ target, mapGet st.clients t = some target →
        target.roomId ≠ some R) →
      handleSignal st c p = [Sent.mk c (ServerMsg.errorMsg
        "Target client is not part of this room.")]) ∧
    (∀ R v t target, p.roomId = some R → R ≠ "" → p.signal = some v →
      sender.roomId = some R → p.targetClientId = some t → t ≠ "" →
      mapGet st.clients t = some target → target.roomId = some R →
      handleSignal st c p = [Sent.mk t (ServerMsg.signalMsg R c v)]) ∧
    (∀ R v, p.roomId = some R → R ≠ "" → p.signal = some v →
      sender.roomId = some R → truthyStr p.targetClientId = false →
      handleSignal st c p
        = broadcastRoom st R (ServerMsg.signalMsg R c v) (some c) ∧
      ∀ s ∈ handleSignal st c p,
        s.recipient ≠ c ∧ s.msg = ServerMsg.signalMsg R c v) := by
  refine ⟨?_, ?_, ?_, ?_, ?_⟩
  · intro hpre
    have hcond : (!truthyStr p.roomId || decide (p.signal = none)) = true := by
      rcases hpre with h | h
      · rw [h]
        rfl
      · rw [h]
        simp
    rw [hs_eq_required st c p hcond]
    exact send_some hcl _
  · intro R v hpR hRne hpv hne
    have hcond : ¬ (!truthyStr p.roomId || decide (p.signal = none)) = true := by
      rw [hpR, hpv]
      simp [truthyStr_some hRne]
    have hne' : sender.roomId ≠ some (p.roomId.getD "") := by
      rw [hpR]
      exact hne
    rw [hs_eq_notInRoom st c p sender hcond hcl hne']
    exact send_some hcl _
  · intro R v t hpR hRne hpv hin hpt htne htarget
    have hcond : ¬ (!truthyStr p.roomId || decide (p.signal = none)) = true := by
      rw [hpR, hpv]
      simp [truthyStr_some hRne]
    have hin' : sender.roomId = some (p.roomId.getD "") := by
      rw [hpR]
      exact hin
    have ht : truthyStr p.targetClientId = true := by
      rw [hpt]
      exact truthyStr_some htne
    cases htm : mapGet st.clients (p.targetClientId.getD "") with
    | none =>
        rw [hs_eq_targetMissing st c p sender hcond hcl hin' ht htm]
        exact send_some hcl _
    | some target =>
        have hto : target.roomId ≠ some (p.roomId.getD "") := by
          rw [hpR]
          apply htarget
          rw [hpt] at htm
          exact htm
        rw [hs_eq_targetElsewhere st c p sender target hcond hcl hin' ht htm hto]
        exact send_some hcl _
  · intro R v t target hpR hRne hpv hin hpt htne htm hto
    have hcond : ¬ (!truthyStr p.roomId || decide (p.signal = none)) = true := by
      rw [hpR, hpv]
      simp [truthyStr_some hRne]
    have hin' : sender.roomId = some (p.roomId.getD "") := by
      rw [hpR]
      exact hin
    have ht : truthyStr p.targetClientId = true := by
      rw [hpt]
      exact truthyStr_some htne
    have htm' : mapGet st.clients (p.targetClientId.getD "") = some target := by
      rw [hpt]
      exact htm
    have hto' : target.roomId = some (p.roomId.getD "") := by
      rw [hpR]
      exact hto
    rw [hs_eq_targetOk st c p sender target hcond hcl hin' ht htm' hto']
    rw [hpR, hpt, hpv]
    simp only [Option.getD_some]
  · intro R v hpR hRne hpv hin ht
    have hcond : ¬ (!truthyStr p.roomId || decide (p.signal = none)) = true := by
      rw [hpR, hpv]
      simp [truthyStr_some hRne]
    have hin' : sender.roomId = some (p.roomId.getD "") := by
      rw [hpR]
      exact hin
    have heq := hs_eq_broadcast st c p sender hcond hcl hin' ht
    rw [hpR, hpv] at heq
    refine ⟨heq, ?_⟩
    intro s hs
    rw [heq] at hs
    exact ⟨broadcastRoom_not_excluded hs, broadcastRoom_msg hs⟩

/-- Witness for C2 (amended): a targeted signal from `"a"` to room-mate `"b"`
is delivered to exactly `"b"`, and a missing-signal payload draws the
required-fields error. -/
theorem signalRoutingCharacterizationWitness :
    handleSignal exStTwo "a"
        (SignalPayloadM.mk (some "r1") (some "b") (some (JSValue.vobj [])))
      = [Sent.mk "b" (ServerMsg.signalMsg "r1" "a" (JSValue.vobj []))] ∧
    handleSignal exStTwo "a" (SignalPayloadM.mk (some "r1") none none)
      = [Sent.mk "a" (ServerMsg.errorMsg
          "Signal payload must include roomId and signal data.")] :=
  ⟨(signalRoutingCharacterization exStTwo "a"
      (SignalPayloadM.mk (some "r1") (some "b") (some (JSValue.vobj [])))
      (exClient (some "r1") (some RoomMode.call) (some "participant"))
      (by decide)).2.2.2.1 "r1" (JSValue.vobj []) "b"
      (exClient (some "r1") (some RoomMode.call) (some "participant"))
      (by decide) (by decide) (by decide) (by decide) (by decide) (by decide)
      (by decide) (by decide),
    (signalRoutingCharacterization exStTwo "a"
      (SignalPayloadM.mk (some "r1") none none)
      (exClient (some "r1") (some RoomMode.call) (some "participant"))
      (by decide)).1 (Or.inr (by decide))⟩

/-- Shared computation lemma: with the secret configured and no fresh cache
entry for the normalized identity, `getIce` computes a fresh response and
caches it at `nowMs`. -/
theorem getIce_computes (hmac : String → String → String) (cfg : IceConfig)
    (cache : IceCache) (nowMs : Nat) (uidQuery : QueryValue) (secret : String)
    (hs : cfg.turnSecret = some secret) (hsn : secret ≠ "")
    (hmiss : ∀ e, mapGet cache (normalizeUid uidQuery) = some e →
      ¬ nowMs - e.cachedAt < ICE_CACHE_TTL_MS) :
    getIce hmac cfg cache nowMs uidQuery
      = (mapSet cache (normalizeUid uidQuery)
          (IceCacheEntry.mk nowMs
            (buildIceResponse hmac cfg nowMs (normalizeUid uidQuery) secret)),
        IceResult.ok
          (buildIceResponse hmac cfg nowMs (normalizeUid uidQuery) secret)) := by
  have htr : truthyStr cfg.turnSecret = true := by
    rw [hs]
    exact truthyStr_some hsn
  unfold getIce
  rw [if_neg (by rw [htr]; simp)]
  dsimp only
  rw [hs]
  simp only [Option.getD_some]
  cases hc : mapGet cache (normalizeUid uidQuery) with
  | none => rfl
  | some e =>
      try dsimp only
      rw [if_neg (hmiss e hc)]

/-- Shared lemma: `getIce` never removes a cache key. -/
theorem getIce_no_evict (hmac : String → String → String) (cfg : IceConfig) :
    ∀ cache now u k, (mapGet cache k).isSome →
      (mapGet (getIce hmac cfg cache now u).1 k).isSome := by
  intro cache now u k h
  unfold getIce
  by_cases hsec : (!truthyStr cfg.turnSecret) = true
  · rw [if_pos hsec]
    exact h
  · rw [if_neg hsec]
    dsimp only
    cases hc : mapGet cache (normalizeUid u) with
    | none =>
        exact mapGet_isSome_set_of h
    | some e =>
        try dsimp only
        by_cases hfresh : now - e.cachedAt < ICE_CACHE_TTL_MS
        · rw [if_pos hfresh]
          exact h
        · rw [if_neg hfresh]
          exact mapGet_isSome_set_of h

/-- C8: with the shared secret configured and no fresh cache entry for the
normalized identity, `GET /ice` computes and caches a response whose
username is `"{expiry}:{identity}"` with `expiry = floor(nowMs/1000) + ttl`,
whose credential is the base64 HMAC-SHA1 digest of that username under the
secret — a pure function of secret, identity and expiry-second — together
with the realm, the ttl, and an `iceServers` list holding one STUN-only entry
and one TURN entry (UDP/TCP/TLS variants) carrying the same
username/credential pair. -/
theorem iceFreshResponseShape (hmac : String → String → String)
    (cfg : IceConfig) (cache : IceCache) (nowMs : Nat) (uidQuery : QueryValue)
    (secret : String) (hs : cfg.turnSecret = some secret) (hsn : secret ≠ "")
    (hmiss : ∀ e, mapGet cache (normalizeUid uidQuery) = some e →
      ¬ nowMs - e.cachedAt < ICE_CACHE_TTL_MS) :
    getIce hmac cfg cache nowMs uidQuery
      = (mapSet cache (normalizeUid uidQuery)
          (IceCacheEntry.mk nowMs
            (buildIceResponse hmac cfg nowMs (normalizeUid uidQuery) secret)),
        IceResult.ok
          (buildIceResponse hmac cfg nowMs (normalizeUid uidQuery) secret)) ∧
    (buildIceResponse hmac cfg nowMs (normalizeUid uidQuery) secret).username
      = toString (nowMs / 1000 + cfg.iceTtlSec) ++ ":"
          ++ normalizeUid uidQuery ∧
    (buildIceResponse hmac cfg nowMs (normalizeUid uidQuery) secret).credential
      = hmac secret (toString (nowMs / 1000 + cfg.iceTtlSec) ++ ":"
          ++ normalizeUid uidQuery) ∧
    (buildIceResponse hmac cfg nowMs (normalizeUid uidQuery) secret).realm
      = cfg.turnRealm ∧
    (buildIceResponse hmac cfg nowMs (normalizeUid uidQuery) secret).ttl
      = cfg.iceTtlSec ∧
    (buildIceResponse hmac cfg nowMs (normalizeUid uidQuery) secret).iceServers
      = [IceServer.stun
          ["stun:" ++ cfg.turnHost ++ ":3478", "stun:" ++ cfg.turnHost ++ ":80"],
        IceServer.turn
          ["turn:" ++ cfg.turnHost ++ ":3478?transport=udp",
            "turn:" ++ cfg.turnHost ++ ":3478?transport=tcp",
            "turns:" ++ cfg.turnHost ++ ":443?transport=tcp"]
          (toString (nowMs / 1000 + cfg.iceTtlSec) ++ ":"
            ++ normalizeUid uidQuery)
          (hmac secret (toString (nowMs / 1000 + cfg.iceTtlSec) ++ ":"
            ++ normalizeUid uidQuery))] ∧
    (∀ n1 n2 uid s, n1 / 1000 = n2 / 1000 →
      buildIceResponse hmac cfg n1 uid s = buildIceResponse hmac cfg n2 uid s) := by
  refine ⟨getIce_computes hmac cfg cache nowMs uidQuery secret hs hsn hmiss,
    rfl, rfl, rfl, rfl, rfl, ?_⟩
  intro n1 n2 uid s h
  unfold buildIceResponse
  rw [h]

/-- Witness for C8: concrete configuration, empty cache, time 0. -/
theorem iceFreshResponseShapeWitness :
    exIceCfg.turnSecret = some "secret" ∧
    (buildIceResponse exHmac exIceCfg 0 (normalizeUid QueryValue.undef)
        "secret").username
      = toString (0 / 1000 + exIceCfg.iceTtlSec) ++ ":"
          ++ normalizeUid QueryValue.undef :=
  ⟨rfl, (iceFreshResponseShape exHmac exIceCfg [] 0 QueryValue.undef "secret"
    rfl (by decide) (fun e h => Option.noConfusion h)).2.1⟩

/-- Counterexample to C9 as stated: an entry computed at time 0; the request
at 299999 ms is served from that cache entry while the request at 300000 ms —
only 1 ms later, same uid, within 5 minutes of the previous request — finds
the entry stale and recomputes, returning a different username/credential.
The window is measured from the entry's `cachedAt`, not between requests. -/
theorem iceCacheChainCounterexample :
    300000 - 299999 < ICE_CACHE_TTL_MS ∧
    (getIce exHmac exIceCfg (getIce exHmac exIceCfg [] 0 QueryValue.undef).1
        299999 QueryValue.undef).2
      = IceResult.ok (buildIceResponse exHmac exIceCfg 0 "web" "secret") ∧
    (getIce exHmac exIceCfg
        (getIce exHmac exIceCfg (getIce exHmac exIceCfg [] 0 QueryValue.undef).1
          299999 QueryValue.undef).1
        300000 QueryValue.undef).2
      = IceResult.ok (buildIceResponse exHmac exIceCfg 300000 "web" "secret") ∧
    (buildIceResponse exHmac exIceCfg 0 "web" "secret").credential
      ≠ (buildIceResponse exHmac exIceCfg 300000 "web" "secret").credential := by
  decide

/-- C9 (amended): when the first request itself computes and caches the
response (no fresh entry existed), any second request whose uid normalizes to
the same identity and arriving within the 5-minute window of that computation
returns the first request's cache and response unchanged — byte-identical,
with no recomputation; and cache entries are never explicitly evicted:
`getIce` never removes a cache key, staleness being checked only by comparing
the entry's age at read time. -/
theorem iceCacheComputedWindowConsistent (hmac : String → String → String)
    (cfg : IceConfig) (cache : IceCache) (n1 : Nat) (u1 : QueryValue)
    (secret : String) (hs : cfg.turnSecret = some secret) (hsn : secret ≠ "")
    (hmiss : ∀ e, mapGet cache (normalizeUid u1) = some e →
      ¬ n1 - e.cachedAt < ICE_CACHE_TTL_MS)
    (n2 : Nat) (u2 : QueryValue) (hsame : normalizeUid u2 = normalizeUid u1)
    (hwin : n2 - n1 < ICE_CACHE_TTL_MS) :
    getIce hmac cfg (getIce hmac cfg cache n1 u1).1 n2 u2
      = getIce hmac cfg cache n1 u1 ∧
    (∀ cache' now u k, (mapGet (cache' : IceCache) k).isSome →
      (mapGet (getIce hmac cfg cache' now u).1 k).isSome) := by
  have hfirst := getIce_computes hmac cfg cache n1 u1 secret hs hsn hmiss
  refine ⟨?_, getIce_no_evict hmac cfg⟩
  rw [hfirst]
  have htr : truthyStr cfg.turnSecret = true := by
    rw [hs]
    exact truthyStr_some hsn
  unfold getIce
  rw [if_neg (by rw [htr]; simp)]
  dsimp only
  rw [hsame, mapGet_set_self]
  try dsimp only
  rw [if_pos hwin]

/-- Witness for C9 (amended): empty cache, computation at time 0, re-request
at time 1 returns the identical cached response. -/
theorem iceCacheComputedWindowConsistentWitness :
    getIce exHmac exIceCfg (getIce exHmac exIceCfg [] 0 QueryValue.undef).1 1
        QueryValue.undef
      = getIce exHmac exIceCfg [] 0 QueryValue.undef :=
  (iceCacheComputedWindowConsistent exHmac exIceCfg [] 0 QueryValue.undef
    "secret" rfl (by decide) (fun e h => Option.noConfusion h) 1
    QueryValue.undef rfl (by decide)).1
